import Mathlib

/-!
Verification of the echarts-server task lifecycle engine.

This file gives a shallow embedding of the queue scheduling core
(`src/services/TaskQueue.js`), the task record (`src/models/Task.js`),
the metrics percentile computation (`src/services/MetricsService.js`),
the cleanup scheduler statistics (`src/services/OSSClient.js`,
CleanupService part) and the health endpoint decision (`src/app.js`),
and proves properties of the embedded operations.

Modelling conventions:
  * JavaScript `Date` instants are natural numbers of milliseconds.
  * JavaScript numbers used in metrics are exact rationals.
  * A JavaScript `Map` is an association list in insertion order:
    `set` replaces in place or appends, `delete` removes the keyed entry.
  * Thrown exceptions are `Except.error` results carrying the message.
-/

namespace EchartsServer

/-! ## JavaScript-like values for configuration validation -/

/-- A primitive-or-object JavaScript value, as far as `Task.validateConfig`
inspects one: truthiness, `typeof`, numeric comparison, string equality. -/
inductive JSVal where
  | undefined : JSVal
  | null : JSVal
  | boolean : Bool → JSVal
  | number : ℚ → JSVal
  | str : String → JSVal
  | object : JSVal
deriving DecidableEq, Repr

/-- JavaScript truthiness of a `JSVal`. -/
def JSVal.truthy : JSVal → Bool
  | .undefined => false
  | .null => false
  | .boolean b => b
  | .number q => q != 0
  | .str s => s != ""
  | .object => true

/-- The string produced by the JavaScript `typeof` operator
(`typeof null` is `"object"`). -/
def JSVal.typeofStr : JSVal → String
  | .undefined => "undefined"
  | .null => "object"
  | .boolean _ => "boolean"
  | .number _ => "number"
  | .str _ => "string"
  | .object => "object"

/-- The fields of a task configuration object that `Task.validateConfig`
reads; an absent field is `JSVal.undefined`. -/
structure TaskConfig where
  option : JSVal
  width : JSVal
  height : JSVal
  type : JSVal
deriving DecidableEq, Repr

/-- The argument passed to `Task.validateConfig`: either a non-object
JavaScript value or an object with the inspected fields. -/
inductive ConfigVal where
  | primitive : JSVal → ConfigVal
  | obj : TaskConfig → ConfigVal
deriving DecidableEq, Repr

/-- `typeof config.width !== 'number' || config.width <= 0` in
`Task.validateConfig`. -/
def notPositiveNumber : JSVal → Bool
  | .number q => decide (q ≤ 0)
  | _ => true

/-- `['png','jpeg','svg','pdf'].includes(config.type)`: a strict-equality
membership test, false for every non-string value. -/
def isAllowedType : JSVal → Bool
  | .str s => ["png", "jpeg", "svg", "pdf"].contains s
  | _ => false

/-- `Task.validateConfig` (src/models/Task.js): returns the list of
violation messages, in source order; the config is valid iff it is empty. -/
def validateConfig : ConfigVal → List String
  | .primitive v =>
      -- `!config || typeof config !== 'object'`: every non-object primitive
      -- fails it (null is falsy, no other primitive has typeof 'object');
      -- a truthy object value without the inspected fields reaches the
      -- field checks with every field undefined, so only the option check
      -- fires.
      if !v.truthy || v.typeofStr != "object" then ["Config must be an object"]
      else ["Config.option is required and must be an object"]
  | .obj c =>
      (if !c.option.truthy || c.option.typeofStr != "object" then
        ["Config.option is required and must be an object"] else []) ++
      (if c.width.truthy && notPositiveNumber c.width then
        ["Config.width must be a positive number"] else []) ++
      (if c.height.truthy && notPositiveNumber c.height then
        ["Config.height must be a positive number"] else []) ++
      (if c.type.truthy && !isAllowedType c.type then
        ["Config.type must be one of: png, jpeg, svg, pdf"] else [])

/-! ## The task record (src/models/Task.js) -/

/-- The `status` field of a task record. -/
inductive TaskStatus where
  | pending : TaskStatus
  | processing : TaskStatus
  | completed : TaskStatus
  | failed : TaskStatus
deriving DecidableEq, Repr

/-- The `Task` record. `taskId` is the uuid string; instants are
milliseconds. -/
structure Task where
  taskId : String
  status : TaskStatus
  config : ConfigVal
  imageUrl : Option String
  fileName : Option String
  createdAt : Nat
  startedAt : Option Nat
  completedAt : Option Nat
  error : Option String
  retryCount : Nat
deriving DecidableEq, Repr

/-- The `Task` constructor: a fresh pending record (the uuid and the
creation instant are parameters of the model). -/
def mkTask (taskId : String) (config : ConfigVal) (now : Nat) : Task :=
  { taskId := taskId, status := .pending, config := config,
    imageUrl := none, fileName := none, createdAt := now,
    startedAt := none, completedAt := none, error := none, retryCount := 0 }

/-- `Task.prototype.start`. -/
def Task.start (t : Task) (now : Nat) : Task :=
  { t with status := .processing, startedAt := some now }

/-- `Task.prototype.complete` (the `fileName` argument may be `null`). -/
def Task.complete (t : Task) (imageUrl : String) (fileName : Option String)
    (now : Nat) : Task :=
  { t with
    status := .completed,
    imageUrl := some imageUrl,
    fileName := fileName,
    completedAt := some now,
    error := none }

/-- `Task.prototype.fail`. -/
def Task.fail (t : Task) (error : String) (now : Nat) : Task :=
  { t with status := .failed, error := some error, completedAt := some now }

/-- `Task.prototype.retry`. -/
def Task.retry (t : Task) : Task :=
  { t with retryCount := t.retryCount + 1, status := .pending, error := none }

/-- `Task.prototype.isTimeout`: the elapsed seconds
`(now − startedAt)/1000` exceed `timeoutSeconds`, stated over
milliseconds without the division. -/
def Task.isTimeout (t : Task) (timeoutSeconds : Nat) (now : Nat) : Bool :=
  match t.startedAt with
  | none => false
  | some s => t.status == .processing && decide (now - s > timeoutSeconds * 1000)

/-- `Task.prototype.isExpired`: the elapsed days since `createdAt` exceed
`retentionDays`, stated over milliseconds without the division. -/
def Task.isExpired (t : Task) (retentionDays : Nat) (now : Nat) : Bool :=
  decide (now - t.createdAt > retentionDays * 24 * 60 * 60 * 1000)

/-- `Task.prototype.getProcessingTime`. -/
def Task.getProcessingTime (t : Task) : Option Int :=
  match t.startedAt, t.completedAt with
  | some s, some c => some ((c : Int) - (s : Int))
  | _, _ => none

/-! ## Insertion-ordered maps (JavaScript `Map`) -/

/-- `Map.prototype.get`. -/
def mapGet (m : List (String × Task)) (k : String) : Option Task :=
  (m.find? (fun p => p.1 == k)).map (·.2)

/-- `Map.prototype.set`: replace in place, or append a new entry. -/
def mapSet (m : List (String × Task)) (k : String) (v : Task) :
    List (String × Task) :=
  match m with
  | [] => [(k, v)]
  | (k', v') :: rest =>
      if k' == k then (k, v) :: rest else (k', v') :: mapSet rest k v

/-- `Map.prototype.delete`. -/
def mapDelete (m : List (String × Task)) (k : String) : List (String × Task) :=
  m.filter (fun p => p.1 != k)

/-! ## The task queue (src/services/TaskQueue.js) -/

/-- A lifecycle event emitted by the queue, with the task id (or ids)
the payload identifies. -/
inductive QEvent where
  | taskEnqueued : String → QEvent
  | taskStarted : String → QEvent
  | taskCompleted : String → QEvent
  | taskFailed : String → QEvent
  | taskRetry : String → QEvent
  | taskTimeout : String → QEvent
  | tasksCleanedUp : List String → QEvent
  | queuePaused : QEvent
  | queueResumed : QEvent
deriving DecidableEq, Repr

/-- The `options` argument of the `TaskQueue` constructor (absent fields
are `none`). -/
structure QueueOptions where
  maxConcurrent : Option Nat
  taskTimeout : Option Nat
  retryAttempts : Option Nat
deriving DecidableEq, Repr

/-- `options.x || d`: the default applies when the option is absent or `0`
(JavaScript `||` treats `0` as falsy). -/
def jsOr (v : Option Nat) (d : Nat) : Nat :=
  match v with
  | some n => if n = 0 then d else n
  | none => d

/-- The mutable state of a `TaskQueue` instance: resolved options, the
three containers, the `stats` object, the timeout-checker flag, and the
history of emitted events. -/
structure QueueState where
  maxConcurrent : Nat
  taskTimeout : Nat
  retryAttempts : Nat
  pendingQueue : List Task
  processingTasks : List (String × Task)
  completedTasks : List (String × Task)
  totalProcessed : Nat
  totalFailed : Nat
  processingTimes : List Int
  averageProcessingTime : ℚ
  timeoutCheckerOn : Bool
  events : List QEvent
deriving DecidableEq, Repr

/-- The `TaskQueue` constructor (which also starts the timeout checker). -/
def initQueue (opts : QueueOptions) : QueueState :=
  { maxConcurrent := jsOr opts.maxConcurrent 10,
    taskTimeout := jsOr opts.taskTimeout 300,
    retryAttempts := jsOr opts.retryAttempts 3,
    pendingQueue := [],
    processingTasks := [],
    completedTasks := [],
    totalProcessed := 0,
    totalFailed := 0,
    processingTimes := [],
    averageProcessingTime := 0,
    timeoutCheckerOn := true,
    events := [] }

/-- `TaskQueue.prototype.getTask`: processing, then completed, then the
pending queue. -/
def getTask (q : QueueState) (taskId : String) : Option Task :=
  match mapGet q.processingTasks taskId with
  | some t => some t
  | none =>
    match mapGet q.completedTasks taskId with
    | some t => some t
    | none => q.pendingQueue.find? (fun t => t.taskId == taskId)

/-- `TaskQueue.prototype.hasTask`. -/
def hasTask (q : QueueState) (taskId : String) : Bool :=
  (getTask q taskId).isSome

/-- `TaskQueue.prototype.startProcessing`. -/
def startProcessing (q : QueueState) (task : Task) (now : Nat) : QueueState :=
  let t := task.start now
  { q with
    processingTasks := mapSet q.processingTasks t.taskId t,
    events := q.events ++ [QEvent.taskStarted t.taskId] }

/-- `TaskQueue.prototype.processNext`. -/
def processNext (q : QueueState) (now : Nat) : QueueState :=
  if q.processingTasks.length ≥ q.maxConcurrent then q
  else
    match q.pendingQueue with
    | [] => q
    | task :: rest => startProcessing { q with pendingQueue := rest } task now

/-- `TaskQueue.prototype.enqueue`: `Bool` is the returned value, an
`Except.error` the thrown `Invalid task object` (`!task` has no
counterpart here; `!task.taskId` is the empty id). -/
def enqueue (q : QueueState) (task : Task) (now : Nat) :
    Except String (QueueState × Bool) :=
  if task.taskId = "" then .error "Invalid task object"
  else if hasTask q task.taskId then .ok (q, false)
  else
    let q1 := { q with
      pendingQueue := q.pendingQueue ++ [task],
      events := q.events ++ [QEvent.taskEnqueued task.taskId] }
    .ok (processNext q1 now, true)

/-- `TaskQueue.prototype.updateStats`. -/
def updateStats (q : QueueState) (task : Task) : QueueState :=
  let q1 := { q with totalProcessed := q.totalProcessed + 1 }
  match task.getProcessingTime with
  | none => q1
  | some pt =>
      let times0 := q1.processingTimes ++ [pt]
      let times := if times0.length > 1000 then times0.tail else times0
      { q1 with
        processingTimes := times,
        averageProcessingTime :=
          (times.map (fun x => (x : ℚ))).sum / (times.length : ℚ) }

/-- `TaskQueue.prototype.completeTask`. -/
def completeTask (q : QueueState) (taskId : String) (imageUrl : String)
    (fileName : Option String) (now : Nat) : Except String QueueState :=
  match mapGet q.processingTasks taskId with
  | none => .error ("Task " ++ taskId ++ " not found in processing queue")
  | some task =>
      let t := task.complete imageUrl fileName now
      let q1 := { q with
        processingTasks := mapDelete q.processingTasks taskId,
        completedTasks := mapSet q.completedTasks taskId t }
      let q2 := updateStats q1 t
      let q3 := { q2 with events := q2.events ++ [QEvent.taskCompleted taskId] }
      .ok (processNext q3 now)

/-- `TaskQueue.prototype.failTask`. -/
def failTask (q : QueueState) (taskId : String) (error : String) (now : Nat) :
    Except String QueueState :=
  match mapGet q.processingTasks taskId with
  | none => .error ("Task " ++ taskId ++ " not found in processing queue")
  | some task =>
      if task.retryCount < q.retryAttempts then
        let t := task.retry
        let q1 := { q with
          processingTasks := mapDelete q.processingTasks taskId,
          pendingQueue := t :: q.pendingQueue,
          events := q.events ++ [QEvent.taskRetry taskId] }
        .ok (processNext q1 now)
      else
        let t := task.fail error now
        let q1 := { q with
          processingTasks := mapDelete q.processingTasks taskId,
          completedTasks := mapSet q.completedTasks taskId t,
          totalFailed := q.totalFailed + 1,
          events := q.events ++ [QEvent.taskFailed taskId] }
        .ok (processNext q1 now)

/-- `TaskQueue.prototype.cleanupExpiredTasks`: evicts the expired entries
of the completed archive and returns them. -/
def cleanupExpiredTasks (q : QueueState) (retentionDays : Nat) (now : Nat) :
    QueueState × List Task :=
  let expired :=
    (q.completedTasks.filter (fun p => p.2.isExpired retentionDays now)).map (·.2)
  let q1 := { q with
    completedTasks :=
      q.completedTasks.filter (fun p => !p.2.isExpired retentionDays now) }
  if expired.isEmpty then (q1, expired)
  else
    ({ q1 with
        events := q1.events ++ [QEvent.tasksCleanedUp (expired.map (·.taskId))] },
     expired)

/-- The `forEach` body of `TaskQueue.prototype.checkTimeouts`: emit
`taskTimeout` for the id, then run the failure path with reason
`"Task timeout"`. Were a collected id no longer in flight, the `failTask`
throw would abort the remaining iterations (unreachable from reachable
states, where collected ids stay in flight until their own iteration). -/
def sweepFold (now : Nat) : QueueState → List String → QueueState
  | q, [] => q
  | q, taskId :: rest =>
      match failTask { q with events := q.events ++ [QEvent.taskTimeout taskId] }
          taskId "Task timeout" now with
      | .ok q2 => sweepFold now q2 rest
      | .error _ => { q with events := q.events ++ [QEvent.taskTimeout taskId] }

/-- `TaskQueue.prototype.checkTimeouts`: collect the ids of the timed-out
in-flight records, then process each. -/
def checkTimeouts (q : QueueState) (now : Nat) : QueueState :=
  sweepFold now q
    ((q.processingTasks.filter
       (fun p => p.2.isTimeout q.taskTimeout now)).map (·.1))

/-- `TaskQueue.prototype.pause`: stop the timeout checker, emit
`queuePaused`. -/
def pause (q : QueueState) : QueueState :=
  { q with
    timeoutCheckerOn := false,
    events := q.events ++ [QEvent.queuePaused] }

/-- `TaskQueue.prototype.resume`: restart the timeout checker, run one
admission attempt, emit `queueResumed`. -/
def resume (q : QueueState) (now : Nat) : QueueState :=
  let q1 := processNext { q with timeoutCheckerOn := true } now
  { q1 with events := q1.events ++ [QEvent.queueResumed] }

/-! ## Operation sequences -/

/-- One externally triggered queue operation; each carries the instant at
which it runs. `opEnqueue` enqueues a freshly constructed task record,
as `TaskManager.createTask` does. -/
inductive QOp where
  | opEnqueue : String → ConfigVal → Nat → QOp
  | opProcessNext : Nat → QOp
  | opComplete : String → String → Option String → Nat → QOp
  | opFail : String → String → Nat → QOp
  | opSweep : Nat → QOp
  | opCleanup : Nat → Nat → QOp
  | opPause : QOp
  | opResume : Nat → QOp
deriving DecidableEq, Repr

/-- Run one operation; a thrown operation leaves the state unchanged. -/
def applyOp (q : QueueState) : QOp → QueueState
  | .opEnqueue taskId config now =>
      match enqueue q (mkTask taskId config now) now with
      | .ok (q', _) => q'
      | .error _ => q
  | .opProcessNext now => processNext q now
  | .opComplete taskId url fn now =>
      match completeTask q taskId url fn now with
      | .ok q' => q'
      | .error _ => q
  | .opFail taskId reason now =>
      match failTask q taskId reason now with
      | .ok q' => q'
      | .error _ => q
  | .opSweep now => checkTimeouts q now
  | .opCleanup retentionDays now => (cleanupExpiredTasks q retentionDays now).1
  | .opPause => pause q
  | .opResume now => resume q now

/-- Run a sequence of operations from a freshly constructed queue. -/
def runOps (opts : QueueOptions) (ops : List QOp) : QueueState :=
  ops.foldl applyOp (initQueue opts)

/-! ## Task creation (TaskManager.createTask, src/services/TaskManager.js) -/

/-- `TaskManager.prototype.createTask`: validate, construct a fresh record,
enqueue it; thrown errors are `Except.error`. -/
def createTask (q : QueueState) (config : ConfigVal) (freshId : String)
    (now : Nat) : Except String (QueueState × Task) :=
  let errors := validateConfig config
  if errors.isEmpty then
    let task := mkTask freshId config now
    match enqueue q task now with
    | .ok (q', true) => .ok (q', task)
    | .ok (_, false) => .error "Failed to enqueue task"
    | .error e => .error e
  else .error ("Invalid task config: " ++ String.intercalate ", " errors)

/-! ## Metrics percentiles (src/services/MetricsService.js) -/

/-- `MetricsService.prototype.getPercentile`: nearest-rank index
`⌈n·q⌉ − 1`, clamped below at `0` (an out-of-range index above, which no
caller produces, is read as `0` here where JavaScript reads `undefined`). -/
def getPercentile (sortedArray : List ℚ) (percentile : ℚ) : ℚ :=
  if sortedArray.length = 0 then 0
  else
    let index : ℤ := ⌈(sortedArray.length : ℚ) * percentile⌉ - 1
    sortedArray.getD (max 0 index).toNat 0

/-- The derived processing-time statistics. -/
structure ProcTimeStats where
  min : ℚ
  max : ℚ
  avg : ℚ
  p50 : ℚ
  p95 : ℚ
  p99 : ℚ
deriving DecidableEq, Repr

/-- The ascending stable sort `[...samples].sort((a, b) => a - b)`. -/
def sortAsc (l : List ℚ) : List ℚ :=
  l.insertionSort (· ≤ ·)

/-- `MetricsService.prototype.updateProcessingTimeStats`: `none` models the
early return on an empty reservoir (the stats object is left untouched). -/
def updateProcessingTimeStats (samples : List ℚ) : Option ProcTimeStats :=
  if samples.isEmpty then none
  else
    let sorted := sortAsc samples
    some
      { min := sorted.getD 0 0,
        max := sorted.getD (sorted.length - 1) 0,
        avg := samples.sum / (samples.length : ℚ),
        p50 := getPercentile sorted (1/2),
        p95 := getPercentile sorted (95/100),
        p99 := getPercentile sorted (99/100) }

/-- The reservoir insertion of `MetricsService.prototype.addProcessingTime`:
push, then drop the oldest sample once the length exceeds 1000. -/
def addProcessingTime (samples : List ℚ) (time : ℚ) : List ℚ :=
  let s := samples ++ [time]
  if s.length > 1000 then s.tail else s

/-- `k` successive insertions of the same duration into an initially empty
reservoir. -/
def insertSame (d : ℚ) : Nat → List ℚ
  | 0 => []
  | k + 1 => addProcessingTime (insertSame d k) d

/-! ## Cleanup scheduler statistics (CleanupService, src/services/OSSClient.js
companion file) -/

/-- The result object of one `taskManager.cleanupExpiredTasks()` call. -/
structure CleanupResult where
  cleanedTasks : Nat
  deletedFiles : Nat
  errors : List String
deriving DecidableEq, Repr

/-- The scheduler's lifetime statistics (`cleanupStats`). -/
structure CleanupStats where
  totalRuns : Nat
  totalTasksCleaned : Nat
  totalFilesCleaned : Nat
  totalErrors : Nat
  lastRunDuration : Nat
deriving DecidableEq, Repr

/-- The retry loop of `CleanupService.prototype.executeCleanupWithRetry`:
`fuel` attempts remain, the next is numbered `attempt`, `lastErr` is the
last caught message (the initial `undefined`). -/
def tryAttempts (outcome : Nat → Except String CleanupResult)
    (lastErr : String) : Nat → Nat → Except String CleanupResult
  | 0, _ => .error lastErr
  | fuel + 1, attempt =>
      match outcome attempt with
      | .ok r => .ok r
      | .error e => tryAttempts outcome e fuel (attempt + 1)

/-- `CleanupService.prototype.executeCleanupWithRetry`: attempts numbered
`1 .. maxRetries`; the outcome of attempt `a` is `outcome a`. -/
def executeCleanupWithRetry (maxRetries : Nat)
    (outcome : Nat → Except String CleanupResult) :
    Except String CleanupResult :=
  tryAttempts outcome "undefined" maxRetries 1

/-- `CleanupService.prototype.updateStats`. -/
def CleanupService.updateStats (s : CleanupStats) (result : CleanupResult)
    (duration : Nat) : CleanupStats :=
  { totalRuns := s.totalRuns + 1,
    totalTasksCleaned := s.totalTasksCleaned + result.cleanedTasks,
    totalFilesCleaned := s.totalFilesCleaned + result.deletedFiles,
    totalErrors := s.totalErrors + result.errors.length,
    lastRunDuration := duration }

/-- The statistics effect of `CleanupService.prototype.runCleanupCycle`:
on success, `updateStats`; on exhaustion of the retries, the `catch`
block increments `totalErrors`. -/
def runCleanupCycle (s : CleanupStats) (maxRetries : Nat)
    (outcome : Nat → Except String CleanupResult) (duration : Nat) :
    CleanupStats :=
  match executeCleanupWithRetry maxRetries outcome with
  | .ok result => CleanupService.updateStats s result duration
  | .error _ => { s with totalErrors := s.totalErrors + 1 }

/-! ## System health endpoint (getSystemHealth, src/app.js) -/

/-- The parts of the `/api/system/health` response the health claims are
about. -/
structure HealthResult where
  statusCode : Nat
  statusStr : String
  checkQueue : String
  checkMemory : String
deriving DecidableEq, Repr

/-- `getSystemHealth`: `isHealthy` is `pendingTasks < 1000`; OSS state and
memory usage feed only the `checks` detail fields. -/
def getSystemHealth (pendingTasks : Nat) (heapUsed : Nat) : HealthResult :=
  let isHealthy := pendingTasks < 1000
  { statusCode := if isHealthy then 200 else 503,
    statusStr := if isHealthy then "ok" else "degraded",
    checkQueue := if pendingTasks < 1000 then "ok" else "warning",
    checkMemory := if heapUsed < 500 * 1024 * 1024 then "ok" else "warning" }

/-- The health rule as the specification words it: degraded (503) when
pending exceeds 1000 or memory is over the threshold. Modelled from the
spec for comparison with `getSystemHealth`. -/
def specHealthDegraded (pendingTasks : Nat) (memoryOver : Bool) : Bool :=
  decide (pendingTasks > 1000) || memoryOver

/-! ## Invariants and observation helpers -/

/-- The concurrency bound: the in-flight map never outgrows
`maxConcurrent`. -/
def SizeInv (q : QueueState) : Prop :=
  q.processingTasks.length ≤ q.maxConcurrent

/-- A task record observable in one of the three containers. -/
def TaskInState (q : QueueState) (t : Task) : Prop :=
  t ∈ q.pendingQueue ∨ (∃ k, (k, t) ∈ q.processingTasks) ∨
    (∃ k, (k, t) ∈ q.completedTasks)

/-- The retry budget bound for every observable record. -/
def RetryInv (q : QueueState) : Prop :=
  ∀ t : Task, TaskInState q t → t.retryCount ≤ q.retryAttempts

/-- Key consistency of the live containers, as the queue maintains it:
every in-flight entry is keyed by its record's id, in-flight keys are
pairwise distinct, pending ids are pairwise distinct, and no pending id
collides with an in-flight key. -/
def QueueWF (q : QueueState) : Prop :=
  (∀ p ∈ q.processingTasks, p.1 = p.2.taskId) ∧
  (q.processingTasks.map Prod.fst).Nodup ∧
  (q.pendingQueue.map Task.taskId).Nodup ∧
  (∀ t ∈ q.pendingQueue, t.taskId ∉ q.processingTasks.map Prod.fst)

/-- Recognizer for `taskCompleted` events. -/
def isCompletedEvent : QEvent → Bool
  | .taskCompleted _ => true
  | _ => false

/-- Recognizer for `taskFailed` events. -/
def isFailedEvent : QEvent → Bool
  | .taskFailed _ => true
  | _ => false

/-- How many records a single event evicted. -/
def cleanedEventCount : QEvent → Nat
  | .tasksCleanedUp ids => ids.length
  | _ => 0

/-- The number of `taskCompleted` events in a history. -/
def countCompletedEvents (evs : List QEvent) : Nat :=
  (evs.filter isCompletedEvent).length

/-- The number of `taskFailed` events in a history. -/
def countFailedEvents (evs : List QEvent) : Nat :=
  (evs.filter isFailedEvent).length

/-- The number of records evicted by retention cleanup in a history. -/
def countEvictedTasks (evs : List QEvent) : Nat :=
  (evs.map cleanedEventCount).sum

/-! ## Concrete inputs used to instantiate the theorems -/

/-- A minimal valid configuration: `{ option: {} }`. -/
def cfg0 : ConfigVal := .obj ⟨.object, .undefined, .undefined, .undefined⟩

/-- `{ option: {}, width: 0 }`: the width is present but zero. -/
def cfgW0 : ConfigVal := .obj ⟨.object, .number 0, .undefined, .undefined⟩

/-- A queue with default options and one pending record. -/
def demoPending : QueueState :=
  { initQueue ⟨none, none, none⟩ with pendingQueue := [mkTask "w" cfg0 0] }

/-- A queue with default options and one in-flight record started at 0. -/
def demoInFlight : QueueState :=
  { initQueue ⟨none, none, none⟩ with
    processingTasks := [("w", (mkTask "w" cfg0 0).start 0)] }

/-- A queue with default options and two pending records. -/
def demoTwoPending : QueueState :=
  { initQueue ⟨none, none, none⟩ with
    pendingQueue := [mkTask "x" cfg0 0, mkTask "y" cfg0 0] }

/-- A queue with default options and two in-flight records, one started
at time 0 and one at 200000 ms. -/
def demoTwoInFlight : QueueState :=
  { initQueue ⟨none, none, none⟩ with
    processingTasks :=
      [("x", (mkTask "x" cfg0 0).start 0),
       ("y", (mkTask "y" cfg0 0).start 200000)] }

/-! ## Lemmas about the map operations -/

theorem length_mapSet_le (m : List (String × Task)) (k : String) (v : Task) :
    (mapSet m k v).length ≤ m.length + 1 := by
  induction m with
  | nil => simp [mapSet]
  | cons p rest ih =>
    obtain ⟨k', v'⟩ := p
    simp only [mapSet]
    split
    · simp
    · simpa using Nat.succ_le_succ ih

theorem mem_mapSet {m : List (String × Task)} {k : String} {v : Task}
    {p : String × Task} (h : p ∈ mapSet m k v) : p = (k, v) ∨ p ∈ m := by
  induction m with
  | nil => simpa [mapSet] using h
  | cons q rest ih =>
    obtain ⟨k', v'⟩ := q
    simp only [mapSet] at h
    split at h
    · rcases List.mem_cons.mp h with h | h
      · exact .inl h
      · exact .inr (List.mem_cons_of_mem _ h)
    · rcases List.mem_cons.mp h with h | h
      · exact .inr (by simp [h])
      · rcases ih h with h | h
        · exact .inl h
        · exact .inr (List.mem_cons_of_mem _ h)

theorem mem_mapDelete {m : List (String × Task)} {k : String}
    {p : String × Task} (h : p ∈ mapDelete m k) : p ∈ m :=
  (List.mem_filter.mp h).1

theorem length_mapDelete_le (m : List (String × Task)) (k : String) :
    (mapDelete m k).length ≤ m.length :=
  List.length_filter_le _ _

theorem mapGet_mem {m : List (String × Task)} {k : String} {t : Task}
    (h : mapGet m k = some t) : (k, t) ∈ m := by
  unfold mapGet at h
  cases hf : m.find? (fun p => p.1 == k) with
  | none => rw [hf] at h; cases h
  | some p =>
    rw [hf] at h
    have hp : p.1 = k := by simpa using List.find?_some hf
    have hm : p ∈ m := List.mem_of_find?_eq_some hf
    have ht : p.2 = t := by simpa using h
    have : p = (k, t) := by
      cases p
      simp_all
    rwa [this] at hm

theorem mapGet_mapSet_self (m : List (String × Task)) (k : String) (v : Task) :
    mapGet (mapSet m k v) k = some v := by
  induction m with
  | nil => simp [mapGet, mapSet]
  | cons p rest ih =>
    obtain ⟨k', v'⟩ := p
    simp only [mapSet]
    split
    · simp [mapGet]
    · rename_i hk
      simpa [mapGet, List.find?, hk] using ih

theorem length_mapDelete_lt {m : List (String × Task)} {k : String} {t : Task}
    (h : mapGet m k = some t) : (mapDelete m k).length < m.length := by
  have hm : (k, t) ∈ m := mapGet_mem h
  clear h
  unfold mapDelete
  induction m with
  | nil => cases hm
  | cons p rest ih =>
    rcases List.mem_cons.mp hm with rfl | hm'
    · simp only [List.filter]
      have : ((k, t).1 != k) = false := by simp
      rw [this]
      exact Nat.lt_succ_of_le (List.length_filter_le _ _)
    · simp only [List.filter]
      cases hb : (p.1 != k) with
      | false => exact Nat.lt_succ_of_le (List.length_filter_le _ _)
      | true => simpa using Nat.succ_lt_succ (ih hm')

/-! ## Characterizations of the queue operations -/

theorem failTask_none {q : QueueState} {taskId : String}
    (hg : mapGet q.processingTasks taskId = none) (reason : String)
    (now : Nat) :
    failTask q taskId reason now =
      .error ("Task " ++ taskId ++ " not found in processing queue") := by
  unfold failTask
  rw [hg]

theorem completeTask_none {q : QueueState} {taskId : String}
    (hg : mapGet q.processingTasks taskId = none) (url : String)
    (fn : Option String) (now : Nat) :
    completeTask q taskId url fn now =
      .error ("Task " ++ taskId ++ " not found in processing queue") := by
  unfold completeTask
  rw [hg]

theorem failTask_eq_retry {q : QueueState} {taskId : String} {task : Task}
    (hg : mapGet q.processingTasks taskId = some task)
    (hr : task.retryCount < q.retryAttempts) (reason : String) (now : Nat) :
    failTask q taskId reason now = .ok (processNext
      { q with
        processingTasks := mapDelete q.processingTasks taskId,
        pendingQueue := task.retry :: q.pendingQueue,
        events := q.events ++ [QEvent.taskRetry taskId] } now) := by
  unfold failTask
  rw [hg]
  dsimp only
  rw [if_pos hr]

theorem failTask_eq_fail {q : QueueState} {taskId : String} {task : Task}
    (hg : mapGet q.processingTasks taskId = some task)
    (hr : ¬ task.retryCount < q.retryAttempts) (reason : String) (now : Nat) :
    failTask q taskId reason now = .ok (processNext
      { q with
        processingTasks := mapDelete q.processingTasks taskId,
        completedTasks := mapSet q.completedTasks taskId (task.fail reason now),
        totalFailed := q.totalFailed + 1,
        events := q.events ++ [QEvent.taskFailed taskId] } now) := by
  unfold failTask
  rw [hg]
  dsimp only
  rw [if_neg hr]

theorem enqueue_eq_new {q : QueueState} {task : Task}
    (hid : ¬ task.taskId = "") (hht : hasTask q task.taskId = false)
    (now : Nat) :
    enqueue q task now = .ok (processNext
      { q with
        pendingQueue := q.pendingQueue ++ [task],
        events := q.events ++ [QEvent.taskEnqueued task.taskId] } now,
      true) := by
  unfold enqueue
  rw [if_neg hid, if_neg (by simp [hht])]

/-! ## Field preservation of the queue operations -/

theorem processNext_preserves (q : QueueState) (now : Nat) :
    (processNext q now).maxConcurrent = q.maxConcurrent ∧
    (processNext q now).taskTimeout = q.taskTimeout ∧
    (processNext q now).retryAttempts = q.retryAttempts ∧
    (processNext q now).completedTasks = q.completedTasks ∧
    (processNext q now).totalProcessed = q.totalProcessed ∧
    (processNext q now).totalFailed = q.totalFailed := by
  unfold processNext startProcessing
  split
  · exact ⟨rfl, rfl, rfl, rfl, rfl, rfl⟩
  · split <;> exact ⟨rfl, rfl, rfl, rfl, rfl, rfl⟩

theorem updateStats_preserves (q : QueueState) (t : Task) :
    (updateStats q t).maxConcurrent = q.maxConcurrent ∧
    (updateStats q t).taskTimeout = q.taskTimeout ∧
    (updateStats q t).retryAttempts = q.retryAttempts ∧
    (updateStats q t).pendingQueue = q.pendingQueue ∧
    (updateStats q t).processingTasks = q.processingTasks ∧
    (updateStats q t).completedTasks = q.completedTasks ∧
    (updateStats q t).totalFailed = q.totalFailed ∧
    (updateStats q t).events = q.events ∧
    (updateStats q t).totalProcessed = q.totalProcessed + 1 := by
  unfold updateStats
  split <;> exact ⟨rfl, rfl, rfl, rfl, rfl, rfl, rfl, rfl, rfl⟩

/-- The events of one admission attempt: unchanged, or one `taskStarted`
appended. -/
theorem processNext_events (q : QueueState) (now : Nat) :
    (processNext q now).events = q.events ∨
    ∃ id, (processNext q now).events = q.events ++ [QEvent.taskStarted id] := by
  unfold processNext startProcessing
  split
  · exact .inl rfl
  · split
    · exact .inl rfl
    · exact .inr ⟨_, rfl⟩

/-! ## The concurrency bound (SizeInv) is preserved -/

theorem sizeInv_processNext {q : QueueState} (h : SizeInv q) (now : Nat) :
    SizeInv (processNext q now) := by
  unfold SizeInv processNext startProcessing at *
  split
  · exact h
  · rename_i hlt
    split
    · exact h
    · simp only
      exact le_trans (length_mapSet_le _ _ _) (by omega)

theorem sizeInv_completeTask {q q' : QueueState} {taskId url : String}
    {fn : Option String} {now : Nat} (h : SizeInv q)
    (hc : completeTask q taskId url fn now = .ok q') : SizeInv q' := by
  unfold completeTask at hc
  cases hg : mapGet q.processingTasks taskId with
  | none => rw [hg] at hc; cases hc
  | some task =>
    rw [hg] at hc
    simp only at hc
    cases hc
    apply sizeInv_processNext
    have hp := (updateStats_preserves
      { q with
        processingTasks := mapDelete q.processingTasks taskId,
        completedTasks :=
          mapSet q.completedTasks taskId (task.complete url fn now) }
      (task.complete url fn now))
    unfold SizeInv
    rw [hp.2.2.2.2.1, hp.1]
    exact le_trans (length_mapDelete_le _ _) h

theorem sizeInv_failTask {q q' : QueueState} {taskId reason : String}
    {now : Nat} (h : SizeInv q)
    (hc : failTask q taskId reason now = .ok q') : SizeInv q' := by
  cases hg : mapGet q.processingTasks taskId with
  | none => rw [failTask_none hg] at hc; cases hc
  | some task =>
    by_cases hr : task.retryCount < q.retryAttempts
    · rw [failTask_eq_retry hg hr] at hc
      cases hc
      exact sizeInv_processNext (q :=
        { q with
          processingTasks := mapDelete q.processingTasks taskId,
          pendingQueue := task.retry :: q.pendingQueue,
          events := q.events ++ [QEvent.taskRetry taskId] })
        (le_trans (length_mapDelete_le _ _) h) _
    · rw [failTask_eq_fail hg hr] at hc
      cases hc
      exact sizeInv_processNext (q :=
        { q with
          processingTasks := mapDelete q.processingTasks taskId,
          completedTasks := mapSet q.completedTasks taskId (task.fail reason now),
          totalFailed := q.totalFailed + 1,
          events := q.events ++ [QEvent.taskFailed taskId] })
        (le_trans (length_mapDelete_le _ _) h) _

theorem sizeInv_sweepFold {q : QueueState} (h : SizeInv q) (now : Nat)
    (ids : List String) : SizeInv (sweepFold now q ids) := by
  induction ids generalizing q with
  | nil => exact h
  | cons id rest ih =>
    rw [sweepFold]
    cases hf : failTask { q with events := q.events ++ [QEvent.taskTimeout id] }
        id "Task timeout" now with
    | ok q2 =>
      exact ih (sizeInv_failTask
        (q := { q with events := q.events ++ [QEvent.taskTimeout id] }) h hf)
    | error e => exact h

theorem sizeInv_enqueue {q q' : QueueState} {task : Task} {b : Bool}
    {now : Nat} (h : SizeInv q)
    (hc : enqueue q task now = .ok (q', b)) : SizeInv q' := by
  unfold enqueue at hc
  split at hc
  · cases hc
  · split at hc
    · cases hc; exact h
    · cases hc
      exact sizeInv_processNext (q :=
        { q with
          pendingQueue := q.pendingQueue ++ [task],
          events := q.events ++ [QEvent.taskEnqueued task.taskId] }) h _

theorem sizeInv_applyOp {q : QueueState} (h : SizeInv q) (op : QOp) :
    SizeInv (applyOp q op) := by
  cases op with
  | opEnqueue taskId config now =>
    simp only [applyOp]
    cases hc : enqueue q (mkTask taskId config now) now with
    | ok p => obtain ⟨q', b⟩ := p; exact sizeInv_enqueue h hc
    | error e => exact h
  | opProcessNext now => exact sizeInv_processNext h now
  | opComplete taskId url fn now =>
    simp only [applyOp]
    cases hc : completeTask q taskId url fn now with
    | ok q' => exact sizeInv_completeTask h hc
    | error e => exact h
  | opFail taskId reason now =>
    simp only [applyOp]
    cases hc : failTask q taskId reason now with
    | ok q' => exact sizeInv_failTask h hc
    | error e => exact h
  | opSweep now => exact sizeInv_sweepFold h now _
  | opCleanup retentionDays now =>
    simp only [applyOp]
    unfold cleanupExpiredTasks
    dsimp only
    split <;> exact h
  | opPause => exact h
  | opResume now =>
    have := sizeInv_processNext h (q := { q with timeoutCheckerOn := true })
    exact this now

theorem sizeInv_foldl {q : QueueState} (h : SizeInv q) (ops : List QOp) :
    SizeInv (ops.foldl applyOp q) := by
  induction ops generalizing q with
  | nil => exact h
  | cons op rest ih => exact ih (sizeInv_applyOp h op)

theorem sizeInv_runOps (opts : QueueOptions) (ops : List QOp) :
    SizeInv (runOps opts ops) := by
  refine sizeInv_foldl ?_ ops
  unfold SizeInv initQueue
  simp

/-! ## Claim C1 -/

/-- C1: across every operation sequence from an empty queue the in-flight
map never outgrows `maxConcurrent`; `processNext` is a no-op when the
in-flight count is at least `maxConcurrent` or the pending deque is empty,
and otherwise admits exactly the head of the pending deque, marking it
processing with `startedAt = now` and inserting it into the in-flight
map (emitting `taskStarted`). -/
theorem claim_C1_concurrency_bound :
    (∀ (opts : QueueOptions) (ops : List QOp),
      (runOps opts ops).processingTasks.length ≤
        (runOps opts ops).maxConcurrent) ∧
    (∀ (q : QueueState) (now : Nat),
      q.maxConcurrent ≤ q.processingTasks.length ∨ q.pendingQueue = [] →
      processNext q now = q) ∧
    (∀ (q : QueueState) (task : Task) (rest : List Task) (now : Nat),
      q.pendingQueue = task :: rest →
      q.processingTasks.length < q.maxConcurrent →
      processNext q now =
        { q with
          pendingQueue := rest,
          processingTasks :=
            mapSet q.processingTasks task.taskId (task.start now),
          events := q.events ++ [QEvent.taskStarted task.taskId] }) := by
  refine ⟨fun opts ops => sizeInv_runOps opts ops, ?_, ?_⟩
  · intro q now h
    unfold processNext
    rcases h with h | h
    · rw [if_pos h]
    · by_cases hc : q.processingTasks.length ≥ q.maxConcurrent
      · rw [if_pos hc]
      · rw [if_neg hc, h]
  · intro q task rest now hp hlt
    unfold processNext
    rw [if_neg (not_le.mpr hlt), hp]
    rfl

/-- Instantiation of `claim_C1_concurrency_bound` at concrete inputs. -/
theorem claim_C1_witness :
    ((runOps ⟨none, none, none⟩
        [.opEnqueue "a" cfg0 0]).processingTasks.length ≤
      (runOps ⟨none, none, none⟩ [.opEnqueue "a" cfg0 0]).maxConcurrent) ∧
    processNext (initQueue ⟨none, none, none⟩) 0 =
      initQueue ⟨none, none, none⟩ ∧
    processNext demoPending 1 =
      { demoPending with
        pendingQueue := [],
        processingTasks :=
          mapSet demoPending.processingTasks (mkTask "w" cfg0 0).taskId
            ((mkTask "w" cfg0 0).start 1),
        events := demoPending.events ++
          [QEvent.taskStarted (mkTask "w" cfg0 0).taskId] } :=
  ⟨claim_C1_concurrency_bound.1 ⟨none, none, none⟩ [.opEnqueue "a" cfg0 0],
   claim_C1_concurrency_bound.2.1 (initQueue ⟨none, none, none⟩) 0
     (Or.inr rfl),
   claim_C1_concurrency_bound.2.2 demoPending (mkTask "w" cfg0 0) [] 1 rfl
     (by decide)⟩

/-! ## Claim C10 -/

/-- C10: for a task id absent from the in-flight map, `completeTask` and
`failTask` throw `Task <id> not found in processing queue`, and the whole
queue state — containers, records, statistics, event history — is
unchanged. -/
theorem claim_C10_not_found_atomic :
    ∀ (q : QueueState) (taskId url reason : String) (fn : Option String)
      (now : Nat),
      mapGet q.processingTasks taskId = none →
      completeTask q taskId url fn now =
        .error ("Task " ++ taskId ++ " not found in processing queue") ∧
      failTask q taskId reason now =
        .error ("Task " ++ taskId ++ " not found in processing queue") ∧
      applyOp q (.opComplete taskId url fn now) = q ∧
      applyOp q (.opFail taskId reason now) = q := by
  intro q taskId url reason fn now hg
  refine ⟨completeTask_none hg url fn now, failTask_none hg reason now, ?_, ?_⟩
  · simp only [applyOp, completeTask_none hg url fn now]
  · simp only [applyOp, failTask_none hg reason now]

/-- Instantiation of `claim_C10_not_found_atomic` at a concrete state. -/
theorem claim_C10_witness :
    completeTask demoPending "x" "u" none 3 =
      .error ("Task " ++ "x" ++ " not found in processing queue") ∧
    failTask demoPending "x" "r" 3 =
      .error ("Task " ++ "x" ++ " not found in processing queue") ∧
    applyOp demoPending (.opComplete "x" "u" none 3) = demoPending ∧
    applyOp demoPending (.opFail "x" "r" 3) = demoPending :=
  claim_C10_not_found_atomic demoPending "x" "u" "r" none 3 (by decide)

/-! ## Claim C3 -/

/-- C3 counterexample: after `pause()` and before any `resume()`, an
`enqueue` still admits a task (a `taskStarted` event follows the
`queuePaused` event); and one `resume()` with two pending tasks and ten
free slots admits exactly one task, not until saturation or emptiness. -/
theorem claim_C3_counterexample :
    (runOps ⟨none, none, none⟩
        [.opPause, .opEnqueue "a" cfg0 0]).events =
      [QEvent.queuePaused, QEvent.taskEnqueued "a", QEvent.taskStarted "a"] ∧
    (resume demoTwoPending 0).processingTasks.length = 1 ∧
    (resume demoTwoPending 0).pendingQueue.length = 1 ∧
    (resume demoTwoPending 0).maxConcurrent = 10 := by
  decide

/-- C3 amended: `pause()` only stops the timeout checker and emits
`queuePaused`; admission is not suppressed while paused (`processNext`
ignores the checker flag, so an enqueue during pause still admits); and
`resume()` restarts the checker and performs a single admission attempt,
admitting at most one task. -/
theorem claim_C3_pause_resume :
    (∀ q : QueueState, pause q =
      { q with
        timeoutCheckerOn := false,
        events := q.events ++ [QEvent.queuePaused] }) ∧
    (∀ (q : QueueState) (now : Nat),
      processNext { q with timeoutCheckerOn := false } now =
        { processNext q now with timeoutCheckerOn := false }) ∧
    (∀ (q : QueueState) (task : Task) (now : Nat),
      ¬ task.taskId = "" →
      hasTask (pause q) task.taskId = false →
      q.pendingQueue = [] →
      q.processingTasks.length < q.maxConcurrent →
      ∃ q' : QueueState,
        enqueue (pause q) task now = .ok (q', true) ∧
        mapGet q'.processingTasks task.taskId = some (task.start now)) ∧
    (∀ (q : QueueState) (now : Nat),
      (resume q now).processingTasks.length ≤
        q.processingTasks.length + 1) := by
  refine ⟨fun q => rfl, ?_, ?_, ?_⟩
  · intro q now
    unfold processNext startProcessing
    dsimp only
    split
    · rfl
    · split <;> rfl
  · intro q task now hid hht hp hlt
    refine ⟨_, ⟨enqueue_eq_new hid hht now, ?_⟩⟩
    unfold pause processNext
    dsimp only
    rw [hp]
    simp only [List.nil_append]
    rw [if_neg (not_le.mpr hlt)]
    unfold startProcessing
    dsimp only
    exact mapGet_mapSet_self _ _ _
  · intro q now
    unfold resume processNext startProcessing
    dsimp only
    split
    · simp
    · split
      · simp
      · exact le_trans (length_mapSet_le _ _ _) (by simp)

/-- Instantiation of `claim_C3_pause_resume` at concrete inputs. -/
theorem claim_C3_witness :
    pause demoPending =
      { demoPending with
        timeoutCheckerOn := false,
        events := demoPending.events ++ [QEvent.queuePaused] } ∧
    (∃ q' : QueueState,
      enqueue (pause (initQueue ⟨none, none, none⟩)) (mkTask "a" cfg0 0) 0 =
        .ok (q', true) ∧
      mapGet q'.processingTasks (mkTask "a" cfg0 0).taskId =
        some ((mkTask "a" cfg0 0).start 0)) :=
  ⟨claim_C3_pause_resume.1 demoPending,
   claim_C3_pause_resume.2.2.1 (initQueue ⟨none, none, none⟩)
     (mkTask "a" cfg0 0) 0 (by decide) (by decide) rfl (by decide)⟩

/-! ## Claim C7 -/

/-- C7 counterexample: at exactly 1000 pending tasks the endpoint answers
503/degraded although the claim's rule (`pending > 1000` or memory over
threshold) calls that healthy; and with the heap at the 500 MB threshold
and no pending tasks it answers 200 although the claim's rule calls that
degraded. -/
theorem claim_C7_counterexample :
    (getSystemHealth 1000 0).statusCode = 503 ∧
    specHealthDegraded 1000 false = false ∧
    (getSystemHealth 0 (500 * 1024 * 1024)).statusCode = 200 ∧
    specHealthDegraded 0 true = true := by
  decide

/-- C7 amended: the endpoint answers 503 with status `degraded` exactly
when at least 1000 tasks are pending, and 200 with status `ok` otherwise;
memory usage only switches the `checks.memory` detail to `warning` at
500 MB of heap, without affecting the status code. -/
theorem claim_C7_health :
    ∀ p h : Nat,
      ((getSystemHealth p h).statusCode = 503 ↔ 1000 ≤ p) ∧
      ((getSystemHealth p h).statusStr = "degraded" ↔ 1000 ≤ p) ∧
      ((getSystemHealth p h).statusCode = 200 ↔ p < 1000) ∧
      ((getSystemHealth p h).checkMemory = "warning" ↔
        500 * 1024 * 1024 ≤ h) := by
  intro p h
  unfold getSystemHealth
  by_cases hp : p < 1000 <;> by_cases hh : h < 500 * 1024 * 1024 <;>
    simp [hp, hh] <;> omega

/-! ## Claim C9 -/

/-- If every attempt in the window fails, the retry loop returns an
error. -/
theorem tryAttempts_all_fail
    (outcome : Nat → Except String CleanupResult) :
    ∀ (fuel attempt : Nat) (e0 : String),
      (∀ a, attempt ≤ a → a < attempt + fuel → (outcome a).isOk = false) →
      ∃ e, tryAttempts outcome e0 fuel attempt = .error e := by
  intro fuel
  induction fuel with
  | zero => exact fun attempt e0 _ => ⟨e0, rfl⟩
  | succ fuel ih =>
    intro attempt e0 h
    cases ho : outcome attempt with
    | ok r =>
      have := h attempt (le_refl _) (by omega)
      rw [ho] at this
      cases this
    | error e =>
      unfold tryAttempts
      rw [ho]
      exact ih (attempt + 1) e (fun a ha hb => h a (by omega) (by omega))

/-- If the first successful attempt in the window is attempt `k` with
result `r`, the retry loop returns `r`. -/
theorem tryAttempts_first_ok
    (outcome : Nat → Except String CleanupResult) :
    ∀ (fuel attempt : Nat) (e0 : String) (k : Nat) (r : CleanupResult),
      attempt ≤ k → k < attempt + fuel →
      (∀ a, attempt ≤ a → a < k → (outcome a).isOk = false) →
      outcome k = .ok r →
      tryAttempts outcome e0 fuel attempt = .ok r := by
  intro fuel
  induction fuel with
  | zero => intro attempt e0 k r h1 h2 _ _; omega
  | succ fuel ih =>
    intro attempt e0 k r h1 h2 hfail hok
    by_cases hk : k = attempt
    · subst hk
      unfold tryAttempts
      rw [hok]
    · have hlt : attempt < k := lt_of_le_of_ne h1 (Ne.symm hk)
      cases ho : outcome attempt with
      | ok r' =>
        have := hfail attempt (le_refl _) hlt
        rw [ho] at this
        cases this
      | error e =>
        unfold tryAttempts
        rw [ho]
        exact ih (attempt + 1) e k r (by omega) (by omega)
          (fun a ha hb => hfail a (by omega) hb) hok

/-- C9 counterexample: a cycle whose three attempts all throw leaves
`totalRuns`, `totalTasksCleaned` and `totalFilesCleaned` unchanged but
increments `totalErrors` from 0 to 1, which the claim says stays
unchanged too. -/
theorem claim_C9_counterexample :
    (runCleanupCycle ⟨0, 0, 0, 0, 0⟩ 3
        (fun _ => .error "cleanup failed") 7).totalErrors = 1 ∧
    (runCleanupCycle ⟨0, 0, 0, 0, 0⟩ 3
        (fun _ => .error "cleanup failed") 7).totalRuns = 0 ∧
    (runCleanupCycle ⟨0, 0, 0, 0, 0⟩ 3
        (fun _ => .error "cleanup failed") 7).totalTasksCleaned = 0 ∧
    (runCleanupCycle ⟨0, 0, 0, 0, 0⟩ 3
        (fun _ => .error "cleanup failed") 7).totalFilesCleaned = 0 := by
  decide

/-- C9 amended: when every attempt of a cycle throws, `totalRuns`,
`totalTasksCleaned` and `totalFilesCleaned` are unchanged but the catch
block increments `totalErrors` by one; when attempt `k` is the first to
succeed, the statistics are updated from its result (run counter and the
three totals accumulate, `lastRunDuration` is set). -/
theorem claim_C9_cleanup_stats :
    (∀ (s : CleanupStats) (maxRetries : Nat)
      (outcome : Nat → Except String CleanupResult) (duration : Nat),
      (∀ a, 1 ≤ a → a ≤ maxRetries → (outcome a).isOk = false) →
      runCleanupCycle s maxRetries outcome duration =
        { s with totalErrors := s.totalErrors + 1 }) ∧
    (∀ (s : CleanupStats) (maxRetries : Nat)
      (outcome : Nat → Except String CleanupResult) (duration : Nat)
      (k : Nat) (r : CleanupResult),
      1 ≤ k → k ≤ maxRetries →
      (∀ a, 1 ≤ a → a < k → (outcome a).isOk = false) →
      outcome k = .ok r →
      runCleanupCycle s maxRetries outcome duration =
        ⟨s.totalRuns + 1, s.totalTasksCleaned + r.cleanedTasks,
         s.totalFilesCleaned + r.deletedFiles,
         s.totalErrors + r.errors.length, duration⟩) := by
  constructor
  · intro s maxRetries outcome duration h
    obtain ⟨e, he⟩ := tryAttempts_all_fail outcome maxRetries 1 "undefined"
      (fun a ha hb => h a ha (by omega))
    unfold runCleanupCycle executeCleanupWithRetry
    rw [he]
  · intro s maxRetries outcome duration k r h1 h2 hfail hok
    have he := tryAttempts_first_ok outcome maxRetries 1 "undefined" k r h1
      (by omega) hfail hok
    unfold runCleanupCycle executeCleanupWithRetry
    rw [he]
    rfl

/-- Instantiation of `claim_C9_cleanup_stats` at concrete inputs. -/
theorem claim_C9_witness :
    runCleanupCycle ⟨1, 2, 3, 4, 5⟩ 2 (fun _ => .error "boom") 9 =
      { (⟨1, 2, 3, 4, 5⟩ : CleanupStats) with
        totalErrors := (⟨1, 2, 3, 4, 5⟩ : CleanupStats).totalErrors + 1 } ∧
    runCleanupCycle ⟨1, 2, 3, 4, 5⟩ 3
        (fun _ => .ok ⟨10, 20, ["e"]⟩) 9 =
      ⟨(⟨1, 2, 3, 4, 5⟩ : CleanupStats).totalRuns + 1,
       (⟨1, 2, 3, 4, 5⟩ : CleanupStats).totalTasksCleaned +
         (⟨10, 20, ["e"]⟩ : CleanupResult).cleanedTasks,
       (⟨1, 2, 3, 4, 5⟩ : CleanupStats).totalFilesCleaned +
         (⟨10, 20, ["e"]⟩ : CleanupResult).deletedFiles,
       (⟨1, 2, 3, 4, 5⟩ : CleanupStats).totalErrors +
         (⟨10, 20, ["e"]⟩ : CleanupResult).errors.length, 9⟩ :=
  ⟨claim_C9_cleanup_stats.1 ⟨1, 2, 3, 4, 5⟩ 2 (fun _ => .error "boom") 9
     (fun a _ _ => rfl),
   claim_C9_cleanup_stats.2 ⟨1, 2, 3, 4, 5⟩ 3 (fun _ => .ok ⟨10, 20, ["e"]⟩)
     9 1 ⟨10, 20, ["e"]⟩ (le_refl 1) (by decide)
     (fun a h1 h2 => ((Nat.not_lt.mpr h1) h2).elim) rfl⟩

/-! ## Claim C6 -/

/-- C6 counterexample: `{ option: {}, width: 0 }` has `width` present and
not a positive number, so the claim demands rejection, yet
`validateConfig` reports no violation (the `config.width &&` truthiness
guard skips `0`) and `createTask` succeeds and enqueues. -/
theorem claim_C6_counterexample :
    cfgW0 = ConfigVal.obj ⟨.object, .number 0, .undefined, .undefined⟩ ∧
    validateConfig cfgW0 = [] ∧
    (createTask (initQueue ⟨none, none, none⟩) cfgW0 "a" 0).isOk = true := by
  decide

/-- C6 amended: `createTask` fails with `Invalid task config: <violations>`
exactly when the config is not a field-bearing object, or `option` is
falsy or not an object, or `width`/`height` is *truthy* and not a positive
number, or `type` is *truthy* and not one of png/jpeg/svg/pdf — so a zero
`width`/`height` or an empty-string `type` is skipped, not rejected; for
every accepted config it constructs a pending record and enqueues it
(admission may then start it immediately). -/
theorem claim_C6_create_task :
    (∀ v : JSVal, validateConfig (.primitive v) ≠ []) ∧
    (∀ c : TaskConfig, validateConfig (.obj c) = [] ↔
      (c.option.truthy = true ∧ c.option.typeofStr = "object") ∧
      (c.width.truthy = true → notPositiveNumber c.width = false) ∧
      (c.height.truthy = true → notPositiveNumber c.height = false) ∧
      (c.type.truthy = true → isAllowedType c.type = true)) ∧
    (∀ cfg : ConfigVal, validateConfig cfg ≠ [] →
      ∀ (q : QueueState) (freshId : String) (now : Nat),
        createTask q cfg freshId now = .error
          ("Invalid task config: " ++
            String.intercalate ", " (validateConfig cfg))) ∧
    (∀ (cfg : ConfigVal) (q : QueueState) (freshId : String) (now : Nat),
      validateConfig cfg = [] → ¬ freshId = "" →
      hasTask q freshId = false →
      (mkTask freshId cfg now).status = .pending ∧
      createTask q cfg freshId now = .ok (processNext
        { q with
          pendingQueue := q.pendingQueue ++ [mkTask freshId cfg now],
          events := q.events ++ [QEvent.taskEnqueued freshId] } now,
        mkTask freshId cfg now)) := by
  refine ⟨?_, ?_, ?_, ?_⟩
  · intro v
    simp only [validateConfig]
    split <;> simp
  · intro c
    simp only [validateConfig]
    cases h1 : (!c.option.truthy || c.option.typeofStr != "object") <;>
    cases h2 : (c.width.truthy && notPositiveNumber c.width) <;>
    cases h3 : (c.height.truthy && notPositiveNumber c.height) <;>
    cases h4 : (c.type.truthy && !isAllowedType c.type) <;>
      simp_all <;> aesop
  · intro cfg hne q freshId now
    unfold createTask
    dsimp only
    rw [if_neg (by simpa [List.isEmpty_iff] using hne)]
  · intro cfg q freshId now hv hid hht
    refine ⟨rfl, ?_⟩
    unfold createTask
    dsimp only
    rw [if_pos (by simp [List.isEmpty_iff, hv])]
    have he : (mkTask freshId cfg now).taskId = freshId := rfl
    rw [enqueue_eq_new (by simpa [he] using hid) (by simpa [he] using hht) now]
    rfl

/-- Instantiation of `claim_C6_create_task` at concrete inputs. -/
theorem claim_C6_witness :
    validateConfig (.primitive .null) ≠ [] ∧
    createTask (initQueue ⟨none, none, none⟩) (.primitive .null) "a" 0 =
      .error ("Invalid task config: " ++
        String.intercalate ", " (validateConfig (.primitive .null))) ∧
    (mkTask "a" cfg0 0).status = .pending ∧
    createTask (initQueue ⟨none, none, none⟩) cfg0 "a" 0 = .ok (processNext
      { initQueue ⟨none, none, none⟩ with
        pendingQueue :=
          (initQueue ⟨none, none, none⟩).pendingQueue ++ [mkTask "a" cfg0 0],
        events := (initQueue ⟨none, none, none⟩).events ++
          [QEvent.taskEnqueued "a"] } 0,
      mkTask "a" cfg0 0) :=
  ⟨claim_C6_create_task.1 .null,
   claim_C6_create_task.2.2.1 (.primitive .null) (by decide)
     (initQueue ⟨none, none, none⟩) "a" 0,
   (claim_C6_create_task.2.2.2 cfg0 (initQueue ⟨none, none, none⟩) "a" 0
     (by decide) (by decide) (by decide)).1,
   (claim_C6_create_task.2.2.2 cfg0 (initQueue ⟨none, none, none⟩) "a" 0
     (by decide) (by decide) (by decide)).2⟩

/-! ## Claim C8 -/

/-- The nearest-rank ceiling index is within `[1, n]` for a quantile in
`(0, 1]`. -/
theorem percentile_index_bounds {n : Nat} {q : ℚ} (hn : 0 < n) (h0 : 0 < q)
    (h1 : q ≤ 1) : 1 ≤ ⌈(n : ℚ) * q⌉ ∧ ⌈(n : ℚ) * q⌉ ≤ n := by
  constructor
  · have hpos : (0 : ℚ) < (n : ℚ) * q :=
      mul_pos (by exact_mod_cast hn) h0
    exact Int.ceil_pos.mpr hpos
  · apply Int.ceil_le.mpr
    have := mul_le_mul_of_nonneg_left h1 (by positivity : (0 : ℚ) ≤ (n : ℚ))
    simpa using this

/-- On a non-empty list and a quantile in `(0, 1]`, `getPercentile` reads
the entry at index `⌈n·q⌉ − 1`, which is in range. -/
theorem getPercentile_formula {l : List ℚ} {q : ℚ} (hne : l ≠ [])
    (h0 : 0 < q) (h1 : q ≤ 1) :
    (⌈(l.length : ℚ) * q⌉ - 1).toNat < l.length ∧
    getPercentile l q = l.getD (⌈(l.length : ℚ) * q⌉ - 1).toNat 0 := by
  have hn : 0 < l.length := List.length_pos.mpr hne
  obtain ⟨hlo, hhi⟩ := percentile_index_bounds hn h0 h1
  refine ⟨by omega, ?_⟩
  unfold getPercentile
  rw [if_neg (by omega)]
  dsimp only
  rw [max_eq_right (by omega : (0 : ℤ) ≤ ⌈(l.length : ℚ) * q⌉ - 1)]

/-- `getPercentile` of a constant list is the constant. -/
theorem getPercentile_replicate {n : Nat} (hn : 0 < n) (d : ℚ) {q : ℚ}
    (h0 : 0 < q) (h1 : q ≤ 1) :
    getPercentile (List.replicate n d) q = d := by
  have hne : List.replicate n d ≠ [] := by
    cases n with
    | zero => omega
    | succ k => simp [List.replicate_succ]
  obtain ⟨hlt, hf⟩ := getPercentile_formula hne h0 h1
  rw [hf, List.getD_eq_getElem _ _ hlt, List.getElem_replicate]

/-- The ascending sort of a constant list is itself. -/
theorem sortAsc_replicate (n : Nat) (d : ℚ) :
    sortAsc (List.replicate n d) = List.replicate n d := by
  have hp := List.perm_insertionSort ((· ≤ ·) : ℚ → ℚ → Prop)
    (List.replicate n d)
  apply List.eq_replicate_iff.mpr
  constructor
  · simpa [sortAsc] using hp.length_eq
  · intro b hb
    exact List.eq_of_mem_replicate (hp.mem_iff.mp hb)

/-- The reservoir after `k` insertions of `d` holds `min k 1000` copies
of `d`. -/
theorem insertSame_eq_replicate (d : ℚ) :
    ∀ k, insertSame d k = List.replicate (min k 1000) d := by
  intro k
  induction k with
  | zero => simp [insertSame]
  | succ k ih =>
    unfold insertSame addProcessingTime
    rw [ih]
    dsimp only
    rw [← List.replicate_succ' (min k 1000) d]
    by_cases h : k < 1000
    · rw [if_neg (by simp; omega)]
      congr 1
      omega
    · rw [if_pos (by simp; omega)]
      have hmin : min k 1000 = 1000 := by omega
      have hmin1 : min (k + 1) 1000 = 1000 := by omega
      rw [hmin, hmin1, List.replicate_succ, List.tail_cons]

/-- The derived statistics of a non-empty constant reservoir are all the
constant. -/
theorem updateStats_replicate {m : Nat} (hm : 0 < m) (d : ℚ) :
    updateProcessingTimeStats (List.replicate m d) =
      some ⟨d, d, d, d, d, d⟩ := by
  have hgd : ∀ i, i < m → (List.replicate m d).getD i 0 = d := by
    intro i hi
    rw [List.getD_eq_getElem _ _ (by simpa using hi), List.getElem_replicate]
  have hie : (List.replicate m d).isEmpty = false := by
    cases m with
    | zero => omega
    | succ k => rfl
  unfold updateProcessingTimeStats
  rw [if_neg (by simp [hie])]
  dsimp only
  rw [sortAsc_replicate]
  have hmin : (List.replicate m d).getD 0 0 = d := hgd 0 hm
  have hmax : (List.replicate m d).getD ((List.replicate m d).length - 1) 0 = d := by
    rw [List.length_replicate]
    exact hgd (m - 1) (by omega)
  have havg : (List.replicate m d).sum / ((List.replicate m d).length : ℚ) = d := by
    rw [List.sum_replicate, List.length_replicate, nsmul_eq_mul]
    exact mul_div_cancel_left₀ d (by exact_mod_cast (by omega : m ≠ 0))
  rw [hmin, hmax, havg,
    getPercentile_replicate hm d (by norm_num) (by norm_num),
    getPercentile_replicate hm d (by norm_num) (by norm_num),
    getPercentile_replicate hm d (by norm_num) (by norm_num)]

/-- C8: for every non-empty sorted sample list and quantile in `(0, 1]`
the reported percentile is the entry at nearest-rank index `⌈n·q⌉ − 1`
(which is in range); hence after `k ≥ 1` insertions of one duration `d`
the derived statistics satisfy `p50 = p95 = p99 = d` and
`min = max = avg = d`. -/
theorem claim_C8_percentile_stats :
    (∀ (l : List ℚ) (q : ℚ), l ≠ [] → List.Sorted (· ≤ ·) l →
      0 < q → q ≤ 1 →
      (⌈(l.length : ℚ) * q⌉ - 1).toNat < l.length ∧
      getPercentile l q = l.getD (⌈(l.length : ℚ) * q⌉ - 1).toNat 0) ∧
    (∀ (k : Nat) (d : ℚ), 1 ≤ k →
      updateProcessingTimeStats (insertSame d k) =
        some ⟨d, d, d, d, d, d⟩) := by
  constructor
  · intro l q hne _ h0 h1
    exact getPercentile_formula hne h0 h1
  · intro k d hk
    rw [insertSame_eq_replicate]
    exact updateStats_replicate (by omega) d

/-- Instantiation of `claim_C8_percentile_stats` at concrete inputs. -/
theorem claim_C8_witness :
    ((⌈(([(3 : ℚ)]).length : ℚ) * (1/2)⌉ - 1).toNat < [(3 : ℚ)].length ∧
      getPercentile [(3 : ℚ)] (1/2) =
        [(3 : ℚ)].getD (⌈(([(3 : ℚ)]).length : ℚ) * (1/2)⌉ - 1).toNat 0) ∧
    updateProcessingTimeStats (insertSame 5 3) = some ⟨5, 5, 5, 5, 5, 5⟩ :=
  ⟨claim_C8_percentile_stats.1 [3] (1/2) (by simp) (by simp)
     (by norm_num) (by norm_num),
   claim_C8_percentile_stats.2 3 5 (by norm_num)⟩

/-! ## Claim C2 -/

/-- The retry branch of `failTask` followed by its own admission attempt:
the freed slot and the head position of the retried task mean the retried
record is immediately re-admitted, so the call leaves the pending deque
unchanged and the retried record back in flight, processing, with a fresh
`startedAt`. -/
theorem failTask_retry_cascade {q : QueueState} {taskId : String}
    {task : Task} (hg : mapGet q.processingTasks taskId = some task)
    (hr : task.retryCount < q.retryAttempts)
    (hlen : q.processingTasks.length ≤ q.maxConcurrent)
    (reason : String) (now : Nat) :
    failTask q taskId reason now = .ok
      { q with
        processingTasks :=
          mapSet (mapDelete q.processingTasks taskId) task.taskId
            (task.retry.start now),
        events := q.events ++
          [QEvent.taskRetry taskId, QEvent.taskStarted task.taskId] } := by
  rw [failTask_eq_retry hg hr]
  congr 1
  unfold processNext
  rw [if_neg (not_le.mpr (lt_of_lt_of_le (length_mapDelete_lt hg) hlen))]
  dsimp only
  unfold startProcessing
  simp [Task.start, Task.retry]

/-- The retry-budget invariant is preserved by one admission attempt. -/
theorem retryInv_processNext {q : QueueState} (h : RetryInv q) (now : Nat) :
    RetryInv (processNext q now) := by
  unfold processNext
  split
  · exact h
  · cases hp : q.pendingQueue with
    | nil => exact h
    | cons task rest =>
      dsimp only
      unfold startProcessing
      dsimp only
      intro t ht
      unfold TaskInState at ht
      dsimp only at ht
      rcases ht with hm | ⟨k, hm⟩ | ⟨k, hm⟩
      · exact h t (Or.inl (by rw [hp]; exact List.mem_cons_of_mem _ hm))
      · rcases mem_mapSet hm with heq | hm2
        · have ht2 : t = task.start now := by
            cases heq
            rfl
          have hb : task.retryCount ≤ q.retryAttempts :=
            h task (Or.inl (by rw [hp]; exact List.mem_cons_self _ _))
          simpa [ht2, Task.start] using hb
        · exact h t (Or.inr (Or.inl ⟨k, hm2⟩))
      · exact h t (Or.inr (Or.inr ⟨k, hm⟩))

/-- The retry-budget invariant is preserved by `failTask`: a retried
record has just been checked strictly under the budget, a terminally
failed record keeps its count. -/
theorem retryInv_failTask {q q' : QueueState} {taskId reason : String}
    {now : Nat} (h : RetryInv q)
    (hc : failTask q taskId reason now = .ok q') : RetryInv q' := by
  cases hg : mapGet q.processingTasks taskId with
  | none => rw [failTask_none hg] at hc; cases hc
  | some task =>
    have hmem : (taskId, task) ∈ q.processingTasks := mapGet_mem hg
    by_cases hr : task.retryCount < q.retryAttempts
    · rw [failTask_eq_retry hg hr] at hc
      cases hc
      apply retryInv_processNext
      intro t ht
      unfold TaskInState at ht
      dsimp only at ht
      rcases ht with hm | ⟨k, hm⟩ | ⟨k, hm⟩
      · rcases List.mem_cons.mp hm with rfl | hm2
        · simpa [Task.retry] using hr
        · exact h t (Or.inl hm2)
      · exact h t (Or.inr (Or.inl ⟨k, mem_mapDelete hm⟩))
      · exact h t (Or.inr (Or.inr ⟨k, hm⟩))
    · rw [failTask_eq_fail hg hr] at hc
      cases hc
      apply retryInv_processNext
      intro t ht
      unfold TaskInState at ht
      dsimp only at ht
      rcases ht with hm | ⟨k, hm⟩ | ⟨k, hm⟩
      · exact h t (Or.inl hm)
      · exact h t (Or.inr (Or.inl ⟨k, mem_mapDelete hm⟩))
      · rcases mem_mapSet hm with heq | hm2
        · have ht2 : t = task.fail reason now := by
            cases heq
            rfl
          have hb : task.retryCount ≤ q.retryAttempts :=
            h task (Or.inr (Or.inl ⟨taskId, hmem⟩))
          simpa [ht2, Task.fail] using hb
        · exact h t (Or.inr (Or.inr ⟨k, hm2⟩))

/-- The retry-budget invariant is preserved by `completeTask`. -/
theorem retryInv_completeTask {q q' : QueueState} {taskId url : String}
    {fn : Option String} {now : Nat} (h : RetryInv q)
    (hc : completeTask q taskId url fn now = .ok q') : RetryInv q' := by
  unfold completeTask at hc
  cases hg : mapGet q.processingTasks taskId with
  | none => rw [hg] at hc; cases hc
  | some task =>
    have hmem : (taskId, task) ∈ q.processingTasks := mapGet_mem hg
    rw [hg] at hc
    simp only at hc
    cases hc
    apply retryInv_processNext
    set t1 := task.complete url fn now with ht1
    have hpres := updateStats_preserves
      { q with
        processingTasks := mapDelete q.processingTasks taskId,
        completedTasks := mapSet q.completedTasks taskId t1 } t1
    intro t ht
    unfold TaskInState at ht
    dsimp only at ht
    rw [hpres.2.2.2.1, hpres.2.2.2.2.1, hpres.2.2.2.2.2.1] at ht
    dsimp only at ht
    rw [hpres.2.2.1]
    dsimp only
    rcases ht with hm | ⟨k, hm⟩ | ⟨k, hm⟩
    · exact h t (Or.inl hm)
    · exact h t (Or.inr (Or.inl ⟨k, mem_mapDelete hm⟩))
    · rcases mem_mapSet hm with heq | hm2
      · have ht2 : t = t1 := by
          cases heq
          rfl
        have hb : task.retryCount ≤ q.retryAttempts :=
          h task (Or.inr (Or.inl ⟨taskId, hmem⟩))
        simpa [ht2, ht1, Task.complete] using hb
      · exact h t (Or.inr (Or.inr ⟨k, hm2⟩))

/-- The retry-budget invariant is preserved by the timeout sweep loop. -/
theorem retryInv_sweepFold {q : QueueState} (h : RetryInv q) (now : Nat)
    (ids : List String) : RetryInv (sweepFold now q ids) := by
  induction ids generalizing q with
  | nil => exact h
  | cons id rest ih =>
    rw [sweepFold]
    cases hf : failTask { q with events := q.events ++ [QEvent.taskTimeout id] }
        id "Task timeout" now with
    | ok q2 =>
      exact ih (retryInv_failTask
        (q := { q with events := q.events ++ [QEvent.taskTimeout id] }) h hf)
    | error e => exact h

/-- The retry-budget invariant is preserved by `enqueue` of a freshly
constructed record. -/
theorem retryInv_enqueue {q q' : QueueState} {taskId : String}
    {config : ConfigVal} {b : Bool} {now : Nat} (h : RetryInv q)
    (hc : enqueue q (mkTask taskId config now) now = .ok (q', b)) :
    RetryInv q' := by
  unfold enqueue at hc
  split at hc
  · cases hc
  · split at hc
    · cases hc; exact h
    · cases hc
      apply retryInv_processNext (q :=
        { q with
          pendingQueue := q.pendingQueue ++ [mkTask taskId config now],
          events := q.events ++
            [QEvent.taskEnqueued (mkTask taskId config now).taskId] })
      intro t ht
      unfold TaskInState at ht
      dsimp only at ht
      rcases ht with hm | hm | hm
      · rcases List.mem_append.mp hm with hm2 | hm2
        · exact h t (Or.inl hm2)
        · have : t = mkTask taskId config now := by simpa using hm2
          simp [this, mkTask]
      · exact h t (Or.inr (Or.inl hm))
      · exact h t (Or.inr (Or.inr hm))

/-- The retry-budget invariant is preserved by every operation. -/
theorem retryInv_applyOp {q : QueueState} (h : RetryInv q) (op : QOp) :
    RetryInv (applyOp q op) := by
  cases op with
  | opEnqueue taskId config now =>
    simp only [applyOp]
    cases hc : enqueue q (mkTask taskId config now) now with
    | ok p => obtain ⟨q', b⟩ := p; exact retryInv_enqueue h hc
    | error e => exact h
  | opProcessNext now => exact retryInv_processNext h now
  | opComplete taskId url fn now =>
    simp only [applyOp]
    cases hc : completeTask q taskId url fn now with
    | ok q' => exact retryInv_completeTask h hc
    | error e => exact h
  | opFail taskId reason now =>
    simp only [applyOp]
    cases hc : failTask q taskId reason now with
    | ok q' => exact retryInv_failTask h hc
    | error e => exact h
  | opSweep now => exact retryInv_sweepFold h now _
  | opCleanup retentionDays now =>
    simp only [applyOp]
    unfold cleanupExpiredTasks
    dsimp only
    split <;>
    · intro t ht
      unfold TaskInState at ht
      dsimp only at ht
      rcases ht with hm | hm | ⟨k, hm⟩
      · exact h t (Or.inl hm)
      · exact h t (Or.inr (Or.inl hm))
      · exact h t (Or.inr (Or.inr ⟨k, (List.mem_filter.mp hm).1⟩))
  | opPause =>
    intro t ht
    exact h t ht
  | opResume now =>
    have h2 : RetryInv { q with timeoutCheckerOn := true } := fun t ht => h t ht
    intro t ht
    exact retryInv_processNext h2 now t ht

/-- The retry-budget invariant holds in every reachable state. -/
theorem retryInv_runOps (opts : QueueOptions) (ops : List QOp) :
    RetryInv (runOps opts ops) := by
  have h0 : RetryInv (initQueue opts) := by
    intro t ht
    unfold TaskInState initQueue at ht
    rcases ht with hm | ⟨k, hm⟩ | ⟨k, hm⟩ <;> cases hm
  unfold runOps
  generalize initQueue opts = q0 at h0 ⊢
  induction ops generalizing q0 with
  | nil => exact h0
  | cons op rest ih => exact ih _ (retryInv_applyOp h0 op)

/-- C2 counterexample: on a default queue, `failTask` of the only
in-flight task (retry budget not exhausted) ends with the pending deque
empty and the task back in the in-flight map with state `processing` and
a fresh `startedAt` — not parked in the pending deque with state
`pending` as the claim describes the post-state. -/
theorem claim_C2_counterexample :
    (runOps ⟨none, none, none⟩
      [.opEnqueue "a" cfg0 0, .opFail "a" "e" 5]).pendingQueue = [] ∧
    (mapGet (runOps ⟨none, none, none⟩
        [.opEnqueue "a" cfg0 0, .opFail "a" "e" 5]).processingTasks "a").map
      (fun t => (t.status, t.retryCount, t.startedAt, t.error)) =
      some (.processing, 1, some 5, none) := by
  decide

/-- C2 amended: with the task's `retryCount` under `retryAttempts`,
`failTask` increments `retryCount`, resets the record to pending with
`error` cleared, moves it from the in-flight map to the head of the
pending deque, emits `taskRetry` — and then its own admission re-attempt
immediately re-admits that same head record (the in-flight count just
dropped below `maxConcurrent`), so the call ends with the pending deque
unchanged and the retried record in flight, `processing`, with
`startedAt = now` (a `taskStarted` event follows). With the budget
exhausted the record is failed with the reason, timestamped, archived,
`totalFailed` incremented and `taskFailed` emitted, followed by an
ordinary admission attempt. In every reachable state
`retryCount ≤ retryAttempts` holds for every observable record. -/
theorem claim_C2_fail_task :
    (∀ (q : QueueState) (taskId reason : String) (task : Task) (now : Nat),
      mapGet q.processingTasks taskId = some task →
      task.retryCount < q.retryAttempts →
      q.processingTasks.length ≤ q.maxConcurrent →
      failTask q taskId reason now = .ok
        { q with
          processingTasks :=
            mapSet (mapDelete q.processingTasks taskId) task.taskId
              (task.retry.start now),
          events := q.events ++
            [QEvent.taskRetry taskId, QEvent.taskStarted task.taskId] }) ∧
    (∀ (q : QueueState) (taskId reason : String) (task : Task) (now : Nat),
      mapGet q.processingTasks taskId = some task →
      ¬ task.retryCount < q.retryAttempts →
      failTask q taskId reason now = .ok (processNext
        { q with
          processingTasks := mapDelete q.processingTasks taskId,
          completedTasks :=
            mapSet q.completedTasks taskId (task.fail reason now),
          totalFailed := q.totalFailed + 1,
          events := q.events ++ [QEvent.taskFailed taskId] } now)) ∧
    (∀ (opts : QueueOptions) (ops : List QOp), RetryInv (runOps opts ops)) :=
  ⟨fun _ _ reason task now hg hr hlen =>
     failTask_retry_cascade hg hr hlen reason now,
   fun _ _ reason task now hg hr => failTask_eq_fail hg hr reason now,
   retryInv_runOps⟩

/-- Instantiation of `claim_C2_fail_task` at concrete inputs. -/
theorem claim_C2_witness :
    failTask demoInFlight "w" "boom" 7 = .ok
      { demoInFlight with
        processingTasks :=
          mapSet (mapDelete demoInFlight.processingTasks "w")
            ((mkTask "w" cfg0 0).start 0).taskId
            ((((mkTask "w" cfg0 0).start 0).retry).start 7),
        events := demoInFlight.events ++
          [QEvent.taskRetry "w",
           QEvent.taskStarted ((mkTask "w" cfg0 0).start 0).taskId] } ∧
    RetryInv (runOps ⟨none, none, none⟩ [.opEnqueue "a" cfg0 0]) :=
  ⟨claim_C2_fail_task.1 demoInFlight "w" "boom" ((mkTask "w" cfg0 0).start 0)
     7 (by decide) (by decide) (by decide),
   claim_C2_fail_task.2.2 ⟨none, none, none⟩ [.opEnqueue "a" cfg0 0]⟩

/-! ## Claim C4 -/

theorem countCompleted_append (a b : List QEvent) :
    countCompletedEvents (a ++ b) =
      countCompletedEvents a + countCompletedEvents b := by
  simp [countCompletedEvents, List.filter_append]

/-- One admission attempt neither counts a completion nor emits one. -/
theorem tp_processNext (q : QueueState) (now : Nat) :
    (processNext q now).totalProcessed = q.totalProcessed ∧
    countCompletedEvents (processNext q now).events =
      countCompletedEvents q.events := by
  refine ⟨(processNext_preserves q now).2.2.2.2.1, ?_⟩
  rcases processNext_events q now with h | ⟨id, h⟩ <;> rw [h] <;>
    simp [countCompleted_append, countCompletedEvents, isCompletedEvent]

/-- A successful `completeTask` raises `totalProcessed` by one and emits
exactly one `taskCompleted`. -/
theorem tp_completeTask {q q' : QueueState} {taskId url : String}
    {fn : Option String} {now : Nat}
    (hc : completeTask q taskId url fn now = .ok q') :
    q'.totalProcessed = q.totalProcessed + 1 ∧
    countCompletedEvents q'.events = countCompletedEvents q.events + 1 := by
  unfold completeTask at hc
  cases hg : mapGet q.processingTasks taskId with
  | none => rw [hg] at hc; cases hc
  | some task =>
    rw [hg] at hc
    simp only at hc
    cases hc
    set t1 := task.complete url fn now with ht1
    set q1 : QueueState :=
      { q with
        processingTasks := mapDelete q.processingTasks taskId,
        completedTasks := mapSet q.completedTasks taskId t1 } with hq1
    set qx : QueueState :=
      { updateStats q1 t1 with
        events := (updateStats q1 t1).events ++ [QEvent.taskCompleted taskId] }
      with hqx
    have hpn := tp_processNext qx now
    have hxT : qx.totalProcessed = q.totalProcessed + 1 := by
      show (updateStats q1 t1).totalProcessed = q.totalProcessed + 1
      rw [(updateStats_preserves q1 t1).2.2.2.2.2.2.2.2]
    have hxE : countCompletedEvents qx.events =
        countCompletedEvents q.events + 1 := by
      show countCompletedEvents
        ((updateStats q1 t1).events ++ [QEvent.taskCompleted taskId]) = _
      rw [(updateStats_preserves q1 t1).2.2.2.2.2.2.2.1, countCompleted_append]
      rfl
    exact ⟨by rw [hpn.1, hxT], by rw [hpn.2, hxE]⟩

/-- `failTask` never changes `totalProcessed` and never emits
`taskCompleted`. -/
theorem tp_failTask {q q' : QueueState} {taskId reason : String} {now : Nat}
    (hc : failTask q taskId reason now = .ok q') :
    q'.totalProcessed = q.totalProcessed ∧
    countCompletedEvents q'.events = countCompletedEvents q.events := by
  cases hg : mapGet q.processingTasks taskId with
  | none => rw [failTask_none hg] at hc; cases hc
  | some task =>
    by_cases hr : task.retryCount < q.retryAttempts
    · rw [failTask_eq_retry hg hr] at hc
      cases hc
      set qx : QueueState :=
        { q with
          processingTasks := mapDelete q.processingTasks taskId,
          pendingQueue := task.retry :: q.pendingQueue,
          events := q.events ++ [QEvent.taskRetry taskId] } with hqx
      have hpn := tp_processNext qx now
      have hxE : countCompletedEvents qx.events = countCompletedEvents q.events := by
        show countCompletedEvents (q.events ++ [QEvent.taskRetry taskId]) = _
        rw [countCompleted_append]
        rfl
      exact ⟨hpn.1, by rw [hpn.2, hxE]⟩
    · rw [failTask_eq_fail hg hr] at hc
      cases hc
      set qx : QueueState :=
        { q with
          processingTasks := mapDelete q.processingTasks taskId,
          completedTasks :=
            mapSet q.completedTasks taskId (task.fail reason now),
          totalFailed := q.totalFailed + 1,
          events := q.events ++ [QEvent.taskFailed taskId] } with hqx
      have hpn := tp_processNext qx now
      have hxE : countCompletedEvents qx.events = countCompletedEvents q.events := by
        show countCompletedEvents (q.events ++ [QEvent.taskFailed taskId]) = _
        rw [countCompleted_append]
        rfl
      exact ⟨hpn.1, by rw [hpn.2, hxE]⟩

/-- The sweep loop never changes `totalProcessed` and never emits
`taskCompleted`. -/
theorem tp_sweepFold (now : Nat) :
    ∀ (ids : List String) (q : QueueState),
      (sweepFold now q ids).totalProcessed = q.totalProcessed ∧
      countCompletedEvents (sweepFold now q ids).events =
        countCompletedEvents q.events := by
  intro ids
  induction ids with
  | nil => exact fun q => ⟨rfl, rfl⟩
  | cons id rest ih =>
    intro q
    rw [sweepFold]
    set qx : QueueState :=
      { q with events := q.events ++ [QEvent.taskTimeout id] } with hqx
    have hxE : countCompletedEvents qx.events = countCompletedEvents q.events := by
      show countCompletedEvents (q.events ++ [QEvent.taskTimeout id]) = _
      rw [countCompleted_append]
      rfl
    cases hf : failTask qx id "Task timeout" now with
    | ok q2 =>
      have hft := tp_failTask hf
      have hrest := ih q2
      exact ⟨by rw [hrest.1, hft.1], by rw [hrest.2, hft.2, hxE]⟩
    | error e => exact ⟨rfl, hxE⟩

/-- Every operation preserves `totalProcessed = #taskCompleted` and never
decreases `totalProcessed`. -/
theorem tp_applyOp (q : QueueState) (op : QOp) :
    (applyOp q op).totalProcessed + countCompletedEvents q.events =
      q.totalProcessed + countCompletedEvents (applyOp q op).events ∧
    q.totalProcessed ≤ (applyOp q op).totalProcessed := by
  cases op with
  | opEnqueue taskId config now =>
    simp only [applyOp]
    cases hc : enqueue q (mkTask taskId config now) now with
    | ok p =>
      obtain ⟨q', b⟩ := p
      dsimp only
      unfold enqueue at hc
      split at hc
      · cases hc
      · split at hc
        · cases hc; exact ⟨rfl, le_refl _⟩
        · cases hc
          set qx : QueueState :=
            { q with
              pendingQueue := q.pendingQueue ++ [mkTask taskId config now],
              events := q.events ++
                [QEvent.taskEnqueued (mkTask taskId config now).taskId] }
            with hqx
          have hpn := tp_processNext qx now
          have hxE : countCompletedEvents qx.events =
              countCompletedEvents q.events := by
            show countCompletedEvents (q.events ++
              [QEvent.taskEnqueued (mkTask taskId config now).taskId]) = _
            rw [countCompleted_append]
            rfl
          refine ⟨?_, le_of_eq hpn.1.symm⟩
          rw [hpn.1, hpn.2, hxE]
    | error e => exact ⟨rfl, le_refl _⟩
  | opProcessNext now =>
    simp only [applyOp]
    have hpn := tp_processNext q now
    exact ⟨by rw [hpn.1, hpn.2], le_of_eq hpn.1.symm⟩
  | opComplete taskId url fn now =>
    simp only [applyOp]
    cases hc : completeTask q taskId url fn now with
    | ok q' =>
      dsimp only
      have h := tp_completeTask hc
      exact ⟨by rw [h.1, h.2]; omega, by omega⟩
    | error e => exact ⟨rfl, le_refl _⟩
  | opFail taskId reason now =>
    simp only [applyOp]
    cases hc : failTask q taskId reason now with
    | ok q' =>
      dsimp only
      have h := tp_failTask hc
      exact ⟨by rw [h.1, h.2], le_of_eq h.1.symm⟩
    | error e => exact ⟨rfl, le_refl _⟩
  | opSweep now =>
    simp only [applyOp]
    unfold checkTimeouts
    have h := tp_sweepFold now
      ((q.processingTasks.filter
        (fun p => p.2.isTimeout q.taskTimeout now)).map (·.1)) q
    exact ⟨by rw [h.1, h.2], le_of_eq h.1.symm⟩
  | opCleanup retentionDays now =>
    simp only [applyOp]
    unfold cleanupExpiredTasks
    dsimp only
    split
    · exact ⟨rfl, le_refl _⟩
    · refine ⟨?_, le_refl _⟩
      show q.totalProcessed + countCompletedEvents q.events =
        q.totalProcessed + countCompletedEvents (q.events ++ [_])
      rw [countCompleted_append]
      rfl
  | opPause =>
    refine ⟨?_, le_refl _⟩
    show q.totalProcessed + countCompletedEvents q.events =
      q.totalProcessed + countCompletedEvents (q.events ++ [QEvent.queuePaused])
    rw [countCompleted_append]
    rfl
  | opResume now =>
    set qt : QueueState := { q with timeoutCheckerOn := true } with hqt
    have hpn := tp_processNext qt now
    refine ⟨?_, le_of_eq hpn.1.symm⟩
    show (processNext qt now).totalProcessed + countCompletedEvents q.events =
      q.totalProcessed +
        countCompletedEvents ((processNext qt now).events ++ [QEvent.queueResumed])
    rw [countCompleted_append, hpn.1, hpn.2]
    rfl

/-- C4 counterexample: one task, enqueued then failed to exhaustion
(`retryAttempts = 1`): one record reached `failed` and none was evicted,
so the claim predicts `totalProcessed = 1`, but the code counts terminal
failures in `totalFailed` only and `totalProcessed` stays 0. -/
theorem claim_C4_counterexample :
    (runOps ⟨none, none, some 1⟩
      [.opEnqueue "a" cfg0 0, .opFail "a" "boom" 5,
       .opFail "a" "boom" 6]).totalProcessed = 0 ∧
    countCompletedEvents (runOps ⟨none, none, some 1⟩
        [.opEnqueue "a" cfg0 0, .opFail "a" "boom" 5,
         .opFail "a" "boom" 6]).events +
      countFailedEvents (runOps ⟨none, none, some 1⟩
        [.opEnqueue "a" cfg0 0, .opFail "a" "boom" 5,
         .opFail "a" "boom" 6]).events -
      countEvictedTasks (runOps ⟨none, none, some 1⟩
        [.opEnqueue "a" cfg0 0, .opFail "a" "boom" 5,
         .opFail "a" "boom" 6]).events = 1 := by
  decide

/-- C4 amended: `totalProcessed` is monotonically non-decreasing over
every operation sequence and equals, at every reachable state, the number
of successful completions (`taskCompleted` events) during the run:
`completeTask` raises it by exactly one, while `failTask` (including
terminal failures, which count into `totalFailed`) and retention cleanup
leave it unchanged. -/
theorem claim_C4_total_processed :
    (∀ (opts : QueueOptions) (ops more : List QOp),
      (runOps opts ops).totalProcessed ≤
        (runOps opts (ops ++ more)).totalProcessed) ∧
    (∀ (opts : QueueOptions) (ops : List QOp),
      (runOps opts ops).totalProcessed =
        countCompletedEvents (runOps opts ops).events) ∧
    (∀ (q q' : QueueState) (taskId url : String) (fn : Option String)
      (now : Nat), completeTask q taskId url fn now = .ok q' →
      q'.totalProcessed = q.totalProcessed + 1) ∧
    (∀ (q q' : QueueState) (taskId reason : String) (now : Nat),
      failTask q taskId reason now = .ok q' →
      q'.totalProcessed = q.totalProcessed) ∧
    (∀ (q : QueueState) (retentionDays now : Nat),
      ((cleanupExpiredTasks q retentionDays now).1).totalProcessed =
        q.totalProcessed) := by
  have hmono : ∀ (more : List QOp) (q0 : QueueState),
      q0.totalProcessed ≤ (more.foldl applyOp q0).totalProcessed := by
    intro more
    induction more with
    | nil => exact fun q0 => le_refl _
    | cons op rest ih =>
      intro q0
      exact le_trans (tp_applyOp q0 op).2 (ih (applyOp q0 op))
  have hinv : ∀ (ops : List QOp) (q0 : QueueState),
      q0.totalProcessed = countCompletedEvents q0.events →
      (ops.foldl applyOp q0).totalProcessed =
        countCompletedEvents (ops.foldl applyOp q0).events := by
    intro ops
    induction ops with
    | nil => exact fun q0 h => h
    | cons op rest ih =>
      intro q0 h
      refine ih (applyOp q0 op) ?_
      have := (tp_applyOp q0 op).1
      omega
  refine ⟨?_, ?_, ?_, ?_, ?_⟩
  · intro opts ops more
    rw [runOps, runOps, List.foldl_append]
    exact hmono more _
  · intro opts ops
    exact hinv ops (initQueue opts) rfl
  · intro q q' taskId url fn now hc
    exact (tp_completeTask hc).1
  · intro q q' taskId reason now hc
    exact (tp_failTask hc).1
  · intro q retentionDays now
    unfold cleanupExpiredTasks
    dsimp only
    split <;> rfl

/-- Instantiation of `claim_C4_total_processed` at concrete inputs. -/
theorem claim_C4_witness :
    (applyOp (runOps ⟨none, none, none⟩ [.opEnqueue "a" cfg0 0])
        (.opComplete "a" "u" none 9)).totalProcessed =
      (runOps ⟨none, none, none⟩ [.opEnqueue "a" cfg0 0]).totalProcessed
        + 1 ∧
    (applyOp (runOps ⟨none, none, none⟩ [.opEnqueue "a" cfg0 0])
        (.opFail "a" "boom" 9)).totalProcessed =
      (runOps ⟨none, none, none⟩ [.opEnqueue "a" cfg0 0]).totalProcessed :=
  ⟨claim_C4_total_processed.2.2.1
     (runOps ⟨none, none, none⟩ [.opEnqueue "a" cfg0 0])
     (applyOp (runOps ⟨none, none, none⟩ [.opEnqueue "a" cfg0 0])
       (.opComplete "a" "u" none 9)) "a" "u" none 9 rfl,
   claim_C4_total_processed.2.2.2.1
     (runOps ⟨none, none, none⟩ [.opEnqueue "a" cfg0 0])
     (applyOp (runOps ⟨none, none, none⟩ [.opEnqueue "a" cfg0 0])
       (.opFail "a" "boom" 9)) "a" "boom" 9 rfl⟩

/-! ## Further map lemmas, for the general sweep theorem -/

theorem mapGet_cons {k0 : String} {v0 : Task} {rest : List (String × Task)}
    {k : String} :
    mapGet ((k0, v0) :: rest) k = if k0 = k then some v0 else mapGet rest k := by
  unfold mapGet
  by_cases h : k0 = k
  · rw [List.find?_cons_of_pos _ (by simpa using h), if_pos h]
    rfl
  · rw [List.find?_cons_of_neg _ (by simpa using h), if_neg h]

theorem mapGet_mapSet_ne {m : List (String × Task)} {k' k : String}
    (h : k' ≠ k) (v : Task) : mapGet (mapSet m k' v) k = mapGet m k := by
  induction m with
  | nil =>
    show mapGet [(k', v)] k = mapGet [] k
    rw [mapGet_cons, if_neg h]
  | cons p rest ih =>
    obtain ⟨k0, v0⟩ := p
    simp only [mapSet]
    split
    · rename_i hk0
      have hk0' : k0 = k' := by simpa using hk0
      rw [mapGet_cons, mapGet_cons, if_neg h, if_neg (by rw [hk0']; exact h)]
    · rw [mapGet_cons, mapGet_cons]
      by_cases hk : k0 = k
      · rw [if_pos hk, if_pos hk]
      · rw [if_neg hk, if_neg hk]
        exact ih

theorem mapGet_mapDelete_ne {m : List (String × Task)} {k' k : String}
    (h : k' ≠ k) : mapGet (mapDelete m k') k = mapGet m k := by
  induction m with
  | nil => rfl
  | cons p rest ih =>
    obtain ⟨k0, v0⟩ := p
    show mapGet (((k0, v0) :: rest).filter (fun p => p.1 != k')) k = _
    rw [List.filter_cons]
    by_cases hk0 : k0 = k'
    · rw [if_neg (by simp [hk0])]
      rw [mapGet_cons, if_neg (by rw [hk0]; exact h)]
      exact ih
    · rw [if_pos (by simp [hk0])]
      rw [mapGet_cons, mapGet_cons]
      by_cases hk : k0 = k
      · rw [if_pos hk, if_pos hk]
      · rw [if_neg hk, if_neg hk]
        exact ih

theorem isSome_mapGet_mapSet {m : List (String × Task)} {k : String}
    (k' : String) (v : Task) (h : (mapGet m k).isSome = true) :
    (mapGet (mapSet m k' v) k).isSome = true := by
  by_cases hk : k' = k
  · subst hk
    rw [mapGet_mapSet_self]
    rfl
  · rw [mapGet_mapSet_ne hk]
    exact h

theorem not_mem_keys_of_mapGet_eq_none {m : List (String × Task)}
    {k : String} (h : mapGet m k = none) : k ∉ m.map Prod.fst := by
  intro hmem
  obtain ⟨p, hp, hk⟩ := List.mem_map.mp hmem
  unfold mapGet at h
  cases hf : m.find? (fun p => p.1 == k) with
  | some p' => rw [hf] at h; cases h
  | none =>
    have := List.find?_eq_none.mp hf p hp
    simp [hk] at this

theorem isSome_mapGet_of_mem_keys {m : List (String × Task)} {k : String}
    (h : k ∈ m.map Prod.fst) : (mapGet m k).isSome = true := by
  cases hm : mapGet m k with
  | none => exact absurd h (not_mem_keys_of_mapGet_eq_none hm)
  | some t => rfl

theorem not_mem_keys_mapDelete (m : List (String × Task)) (k : String) :
    k ∉ (mapDelete m k).map Prod.fst := by
  intro hmem
  obtain ⟨p, hp, hk⟩ := List.mem_map.mp hmem
  have := (List.mem_filter.mp hp).2
  simp [hk] at this

theorem keys_mapDelete_subset {m : List (String × Task)} {k k' : String}
    (h : k' ∈ (mapDelete m k).map Prod.fst) : k' ∈ m.map Prod.fst := by
  obtain ⟨p, hp, hk⟩ := List.mem_map.mp h
  exact hk ▸ List.mem_map_of_mem Prod.fst (mem_mapDelete hp)

theorem nodup_keys_mapDelete {m : List (String × Task)} {k : String}
    (h : (m.map Prod.fst).Nodup) :
    ((mapDelete m k).map Prod.fst).Nodup :=
  List.Nodup.sublist (List.Sublist.map Prod.fst (List.filter_sublist m)) h

theorem mapSet_of_not_mem_keys {m : List (String × Task)} {k : String}
    (h : k ∉ m.map Prod.fst) (v : Task) : mapSet m k v = m ++ [(k, v)] := by
  induction m with
  | nil => rfl
  | cons p rest ih =>
    obtain ⟨k0, v0⟩ := p
    simp only [List.map_cons, List.mem_cons, not_or] at h
    obtain ⟨h1, h2⟩ := h
    simp only [mapSet]
    rw [if_neg (by simpa using Ne.symm h1)]
    show (k0, v0) :: mapSet rest k v = (k0, v0) :: (rest ++ [(k, v)])
    rw [ih h2]

theorem mapGet_first {m : List (String × Task)} {k : String} {t : Task}
    (hmem : (k, t) ∈ m) (hnd : (m.map Prod.fst).Nodup) :
    mapGet m k = some t := by
  induction m with
  | nil => cases hmem
  | cons p rest ih =>
    obtain ⟨k0, v0⟩ := p
    simp only [List.map_cons] at hnd
    obtain ⟨hk0nm, hndr⟩ := List.nodup_cons.mp hnd
    rcases List.mem_cons.mp hmem with heq | hmem2
    · cases heq
      rw [mapGet_cons, if_pos rfl]
    · have hk0 : k0 ≠ k := fun e => hk0nm
        (by rw [e]; exact List.mem_map_of_mem Prod.fst hmem2)
      rw [mapGet_cons, if_neg hk0]
      exact ih hmem2 hndr

theorem mem_keys_unique {m : List (String × Task)} {k : String}
    {t t' : Task} (hnd : (m.map Prod.fst).Nodup) (h1 : (k, t) ∈ m)
    (h2 : (k, t') ∈ m) : t = t' := by
  have e1 := mapGet_first h1 hnd
  have e2 := mapGet_first h2 hnd
  rw [e1] at e2
  exact Option.some.inj e2

/-! ## Structural lemmas about one admission attempt -/

theorem processNext_pending_subset {q : QueueState} {now : Nat} {t : Task}
    (h : t ∈ (processNext q now).pendingQueue) : t ∈ q.pendingQueue := by
  unfold processNext startProcessing at h
  split at h
  · exact h
  · split at h
    · exact h
    · rename_i task rest heq
      dsimp only at h
      rw [heq]
      exact List.mem_cons_of_mem _ h

theorem isSome_mapGet_processNext {q : QueueState} {id : String} (now : Nat)
    (h : (mapGet q.processingTasks id).isSome = true) :
    (mapGet (processNext q now).processingTasks id).isSome = true := by
  unfold processNext startProcessing
  split
  · exact h
  · split
    · exact h
    · dsimp only
      exact isSome_mapGet_mapSet _ _ h

theorem processNext_frame_get {q : QueueState} {id : String}
    (h : ∀ t ∈ q.pendingQueue, t.taskId ≠ id) (now : Nat) :
    mapGet (processNext q now).processingTasks id =
      mapGet q.processingTasks id := by
  unfold processNext startProcessing
  split
  · rfl
  · split
    · rfl
    · rename_i task rest heq
      dsimp only
      refine mapGet_mapSet_ne ?_ _
      show (task.start now).taskId ≠ id
      have hmem : task ∈ q.pendingQueue := by
        rw [heq]
        exact List.mem_cons_self _ _
      simpa [Task.start] using h task hmem

theorem procKeysOk_processNext {q : QueueState}
    (h : ∀ p ∈ q.processingTasks, p.1 = p.2.taskId) (now : Nat) :
    ∀ p ∈ (processNext q now).processingTasks, p.1 = p.2.taskId := by
  unfold processNext startProcessing
  split
  · exact h
  · split
    · exact h
    · dsimp only
      intro p hp
      rcases mem_mapSet hp with heqp | hm
      · rw [heqp]
      · exact h p hm

theorem queueWF_processNext {q : QueueState} (h : QueueWF q) (now : Nat) :
    QueueWF (processNext q now) := by
  obtain ⟨h1, h2, h3, h4⟩ := h
  unfold processNext startProcessing
  split
  · exact ⟨h1, h2, h3, h4⟩
  · split
    · exact ⟨h1, h2, h3, h4⟩
    · rename_i task rest heq
      dsimp only
      have htid : task.taskId ∉ q.processingTasks.map Prod.fst :=
        h4 task (by rw [heq]; exact List.mem_cons_self _ _)
      have hset : mapSet q.processingTasks (task.start now).taskId
          (task.start now) =
          q.processingTasks ++ [((task.start now).taskId, task.start now)] :=
        mapSet_of_not_mem_keys (by simpa [Task.start] using htid) _
      have hpend := h3
      rw [heq, List.map_cons] at hpend
      obtain ⟨hhd, htl⟩ := List.nodup_cons.mp hpend
      refine ⟨?_, ?_, ?_, ?_⟩
      · intro p hp
        rcases mem_mapSet hp with heqp | hm
        · rw [heqp]
        · exact h1 p hm
      · rw [hset, List.map_append]
        simp only [List.map_cons, List.map_nil]
        rw [List.nodup_append]
        refine ⟨h2, List.nodup_singleton _, ?_⟩
        intro a ha hb
        simp only [List.mem_singleton] at hb
        rw [hb] at ha
        exact htid (by simpa [Task.start] using ha)
      · exact htl
      · intro t ht
        have htmem : t ∈ q.pendingQueue := by
          rw [heq]
          exact List.mem_cons_of_mem _ ht
        rw [hset, List.map_append]
        simp only [List.map_cons, List.map_nil]
        intro hmem
        rcases List.mem_append.mp hmem with hmem2 | hmem2
        · exact h4 t htmem hmem2
        · have he1 : t.taskId = (task.start now).taskId := by
            simpa using hmem2
          have he2 : t.taskId = task.taskId := by
            simpa [Task.start] using he1
          exact hhd (by rw [← he2]; exact List.mem_map_of_mem Task.taskId ht)

/-- A `hasTask = false` result means the id is in none of the three
containers. -/
theorem hasTask_false_decomp {q : QueueState} {id : String}
    (h : hasTask q id = false) :
    mapGet q.processingTasks id = none ∧
    mapGet q.completedTasks id = none ∧
    ∀ t ∈ q.pendingQueue, t.taskId ≠ id := by
  unfold hasTask getTask at h
  cases hp : mapGet q.processingTasks id with
  | some t => rw [hp] at h; simp at h
  | none =>
    rw [hp] at h
    cases hcmp : mapGet q.completedTasks id with
    | some t => rw [hcmp] at h; simp at h
    | none =>
      rw [hcmp] at h
      refine ⟨rfl, rfl, ?_⟩
      intro t ht hid
      dsimp only at h
      cases hf : q.pendingQueue.find? (fun t => t.taskId == id) with
      | some t' => rw [hf] at h; simp at h
      | none =>
        have := List.find?_eq_none.mp hf t ht
        simp [hid] at this

/-! ## The event history only ever grows -/

theorem events_prefix_processNext (q : QueueState) (now : Nat) :
    ∃ l, (processNext q now).events = q.events ++ l := by
  rcases processNext_events q now with h | ⟨id, h⟩
  · exact ⟨[], by rw [h, List.append_nil]⟩
  · exact ⟨[QEvent.taskStarted id], h⟩

theorem events_prefix_failTask {q q' : QueueState} {taskId reason : String}
    {now : Nat} (hc : failTask q taskId reason now = .ok q') :
    ∃ l, q'.events = q.events ++ l := by
  cases hg : mapGet q.processingTasks taskId with
  | none => rw [failTask_none hg] at hc; cases hc
  | some task =>
    by_cases hr : task.retryCount < q.retryAttempts
    · rw [failTask_eq_retry hg hr] at hc
      cases hc
      obtain ⟨l, hl⟩ := events_prefix_processNext
        { q with
          processingTasks := mapDelete q.processingTasks taskId,
          pendingQueue := task.retry :: q.pendingQueue,
          events := q.events ++ [QEvent.taskRetry taskId] } now
      exact ⟨[QEvent.taskRetry taskId] ++ l, by rw [hl, List.append_assoc]⟩
    · rw [failTask_eq_fail hg hr] at hc
      cases hc
      obtain ⟨l, hl⟩ := events_prefix_processNext
        { q with
          processingTasks := mapDelete q.processingTasks taskId,
          completedTasks :=
            mapSet q.completedTasks taskId (task.fail reason now),
          totalFailed := q.totalFailed + 1,
          events := q.events ++ [QEvent.taskFailed taskId] } now
      exact ⟨[QEvent.taskFailed taskId] ++ l, by rw [hl, List.append_assoc]⟩

theorem events_prefix_sweepFold (now : Nat) :
    ∀ (ids : List String) (qc : QueueState),
      ∃ l, (sweepFold now qc ids).events = qc.events ++ l := by
  intro ids
  induction ids with
  | nil => exact fun qc => ⟨[], by rw [List.append_nil]; rfl⟩
  | cons id rest ih =>
    intro qc
    rw [sweepFold]
    cases hf : failTask
        { qc with events := qc.events ++ [QEvent.taskTimeout id] }
        id "Task timeout" now with
    | ok q2 =>
      obtain ⟨l1, hl1⟩ := events_prefix_failTask hf
      obtain ⟨l2, hl2⟩ := ih q2
      refine ⟨[QEvent.taskTimeout id] ++ l1 ++ l2, ?_⟩
      rw [hl2, hl1]
      show (qc.events ++ [QEvent.taskTimeout id]) ++ l1 ++ l2 = _
      simp [List.append_assoc]
    | error e => exact ⟨[QEvent.taskTimeout id], rfl⟩

/-! ## Key consistency is preserved by every operation -/

theorem queueWF_failTask {q q' : QueueState} {taskId reason : String}
    {now : Nat} (h : QueueWF q)
    (hc : failTask q taskId reason now = .ok q') : QueueWF q' := by
  obtain ⟨h1, h2, h3, h4⟩ := h
  cases hg : mapGet q.processingTasks taskId with
  | none => rw [failTask_none hg] at hc; cases hc
  | some task =>
    have hmem : (taskId, task) ∈ q.processingTasks := mapGet_mem hg
    have htid : task.taskId = taskId := (h1 (taskId, task) hmem).symm
    have hkey : taskId ∈ q.processingTasks.map Prod.fst :=
      List.mem_map_of_mem Prod.fst hmem
    by_cases hr : task.retryCount < q.retryAttempts
    · rw [failTask_eq_retry hg hr] at hc
      cases hc
      apply queueWF_processNext
      refine ⟨?_, ?_, ?_, ?_⟩
      · intro p hp
        exact h1 p (mem_mapDelete hp)
      · exact nodup_keys_mapDelete h2
      · show ((task.retry :: q.pendingQueue).map Task.taskId).Nodup
        rw [List.map_cons, List.nodup_cons]
        refine ⟨?_, h3⟩
        intro hmem2
        obtain ⟨t', ht', he⟩ := List.mem_map.mp hmem2
        have : t'.taskId = taskId := by
          rw [he]
          show task.retry.taskId = taskId
          simpa [Task.retry] using htid
        exact h4 t' ht' (this ▸ hkey)
      · intro t' ht'
        rcases List.mem_cons.mp ht' with rfl | ht2
        · show task.retry.taskId ∉ _
          have : task.retry.taskId = taskId := by
            simpa [Task.retry] using htid
          rw [this]
          exact not_mem_keys_mapDelete _ _
        · intro hmem2
          exact h4 t' ht2 (keys_mapDelete_subset hmem2)
    · rw [failTask_eq_fail hg hr] at hc
      cases hc
      apply queueWF_processNext
      refine ⟨?_, ?_, h3, ?_⟩
      · intro p hp
        exact h1 p (mem_mapDelete hp)
      · exact nodup_keys_mapDelete h2
      · intro t' ht' hmem2
        exact h4 t' ht' (keys_mapDelete_subset hmem2)

theorem queueWF_completeTask {q q' : QueueState} {taskId url : String}
    {fn : Option String} {now : Nat} (h : QueueWF q)
    (hc : completeTask q taskId url fn now = .ok q') : QueueWF q' := by
  obtain ⟨h1, h2, h3, h4⟩ := h
  unfold completeTask at hc
  cases hg : mapGet q.processingTasks taskId with
  | none => rw [hg] at hc; cases hc
  | some task =>
    rw [hg] at hc
    simp only at hc
    cases hc
    apply queueWF_processNext
    set t1 := task.complete url fn now with ht1
    set q1 : QueueState :=
      { q with
        processingTasks := mapDelete q.processingTasks taskId,
        completedTasks := mapSet q.completedTasks taskId t1 } with hq1
    have e1 : ({ updateStats q1 t1 with
        events := (updateStats q1 t1).events ++ [QEvent.taskCompleted taskId]
      } : QueueState).processingTasks = q1.processingTasks :=
      (updateStats_preserves q1 t1).2.2.2.2.1
    have e2 : ({ updateStats q1 t1 with
        events := (updateStats q1 t1).events ++ [QEvent.taskCompleted taskId]
      } : QueueState).pendingQueue = q1.pendingQueue :=
      (updateStats_preserves q1 t1).2.2.2.1
    refine ⟨?_, ?_, ?_, ?_⟩
    · rw [e1]
      intro p hp
      exact h1 p (mem_mapDelete hp)
    · rw [e1]
      exact nodup_keys_mapDelete h2
    · rw [e2]
      exact h3
    · rw [e1, e2]
      intro t' ht' hmem2
      exact h4 t' ht' (keys_mapDelete_subset hmem2)

theorem queueWF_enqueue {q q' : QueueState} {task : Task} {b : Bool}
    {now : Nat} (h : QueueWF q)
    (hc : enqueue q task now = .ok (q', b)) : QueueWF q' := by
  obtain ⟨h1, h2, h3, h4⟩ := h
  unfold enqueue at hc
  split at hc
  · cases hc
  · split at hc
    · cases hc
      exact ⟨h1, h2, h3, h4⟩
    · rename_i hht
      have hht' : hasTask q task.taskId = false := by
        simpa using hht
      obtain ⟨hpn, _, hpend⟩ := hasTask_false_decomp hht'
      cases hc
      apply queueWF_processNext
      refine ⟨h1, h2, ?_, ?_⟩
      · show ((q.pendingQueue ++ [task]).map Task.taskId).Nodup
        rw [List.map_append, List.map_cons, List.map_nil, List.nodup_append]
        refine ⟨h3, List.nodup_singleton _, ?_⟩
        intro a ha hb
        simp only [List.mem_singleton] at hb
        obtain ⟨t', ht', he⟩ := List.mem_map.mp ha
        exact hpend t' ht' (by rw [he, hb])
      · intro t' ht'
        rcases List.mem_append.mp ht' with ht2 | ht2
        · exact h4 t' ht2
        · have : t' = task := by simpa using ht2
          rw [this]
          exact not_mem_keys_of_mapGet_eq_none hpn

theorem queueWF_sweepFold {q : QueueState} (h : QueueWF q) (now : Nat)
    (ids : List String) : QueueWF (sweepFold now q ids) := by
  induction ids generalizing q with
  | nil => exact h
  | cons id rest ih =>
    rw [sweepFold]
    cases hf : failTask { q with events := q.events ++ [QEvent.taskTimeout id] }
        id "Task timeout" now with
    | ok q2 =>
      exact ih (queueWF_failTask
        (q := { q with events := q.events ++ [QEvent.taskTimeout id] }) h hf)
    | error e => exact h

theorem queueWF_applyOp {q : QueueState} (h : QueueWF q) (op : QOp) :
    QueueWF (applyOp q op) := by
  cases op with
  | opEnqueue taskId config now =>
    simp only [applyOp]
    cases hc : enqueue q (mkTask taskId config now) now with
    | ok p => obtain ⟨q', b⟩ := p; exact queueWF_enqueue h hc
    | error e => exact h
  | opProcessNext now => exact queueWF_processNext h now
  | opComplete taskId url fn now =>
    simp only [applyOp]
    cases hc : completeTask q taskId url fn now with
    | ok q' => exact queueWF_completeTask h hc
    | error e => exact h
  | opFail taskId reason now =>
    simp only [applyOp]
    cases hc : failTask q taskId reason now with
    | ok q' => exact queueWF_failTask h hc
    | error e => exact h
  | opSweep now => exact queueWF_sweepFold h now _
  | opCleanup retentionDays now =>
    simp only [applyOp]
    unfold cleanupExpiredTasks
    dsimp only
    split <;> exact h
  | opPause => exact h
  | opResume now =>
    exact queueWF_processNext (q := { q with timeoutCheckerOn := true }) h now

theorem queueWF_runOps (opts : QueueOptions) (ops : List QOp) :
    QueueWF (runOps opts ops) := by
  have h0 : QueueWF (initQueue opts) := by
    refine ⟨?_, ?_, ?_, ?_⟩ <;> simp [initQueue]
  unfold runOps
  generalize initQueue opts = q0 at h0 ⊢
  induction ops generalizing q0 with
  | nil => exact h0
  | cons op rest ih => exact ih _ (queueWF_applyOp h0 op)

/-! ## The sweep loop: frame and per-record outcome -/

/-- Frame property of the sweep loop: an id not in the processed list
(and not shared by any pending record) keeps its in-flight and archive
entries, whatever the loop does, even if it aborts early. -/
theorem sweepFold_frame (now : Nat) :
    ∀ (ids : List String) (qc : QueueState) (id : String),
      id ∉ ids →
      (∀ p ∈ qc.processingTasks, p.1 = p.2.taskId) →
      (∀ t ∈ qc.pendingQueue, t.taskId ≠ id) →
      mapGet (sweepFold now qc ids).processingTasks id =
        mapGet qc.processingTasks id ∧
      mapGet (sweepFold now qc ids).completedTasks id =
        mapGet qc.completedTasks id := by
  intro ids
  induction ids with
  | nil => exact fun qc id _ _ _ => ⟨rfl, rfl⟩
  | cons id0 rest ih =>
    intro qc id hnin hkeys hpend
    have hne : id0 ≠ id := fun e => hnin (by rw [e]; exact List.mem_cons_self _ _)
    have hninr : id ∉ rest := fun hm => hnin (List.mem_cons_of_mem _ hm)
    rw [sweepFold]
    cases hf : failTask
        { qc with events := qc.events ++ [QEvent.taskTimeout id0] }
        id0 "Task timeout" now with
    | error e => exact ⟨rfl, rfl⟩
    | ok q2 =>
      have hforward : mapGet q2.processingTasks id = mapGet qc.processingTasks id ∧
          mapGet q2.completedTasks id = mapGet qc.completedTasks id ∧
          (∀ p ∈ q2.processingTasks, p.1 = p.2.taskId) ∧
          (∀ t ∈ q2.pendingQueue, t.taskId ≠ id) := by
        cases hg : mapGet ({ qc with
            events := qc.events ++ [QEvent.taskTimeout id0]
          } : QueueState).processingTasks id0 with
        | none => rw [failTask_none hg] at hf; cases hf
        | some t0 =>
          have hmem0 : (id0, t0) ∈ qc.processingTasks := mapGet_mem hg
          have ht0 : t0.taskId = id0 := (hkeys _ hmem0).symm
          by_cases hr : t0.retryCount < qc.retryAttempts
          · rw [failTask_eq_retry hg hr] at hf
            cases hf
            have hXpend : ∀ t ∈ (t0.retry :: qc.pendingQueue), t.taskId ≠ id := by
              intro t ht
              rcases List.mem_cons.mp ht with rfl | ht2
              · show t0.retry.taskId ≠ id
                simpa [Task.retry, ht0] using hne
              · exact hpend t ht2
            refine ⟨?_, ?_, ?_, ?_⟩
            · refine (processNext_frame_get ?_ now).trans
                (mapGet_mapDelete_ne hne)
              exact hXpend
            · exact congrArg (fun m => mapGet m id)
                (processNext_preserves _ now).2.2.2.1
            · exact procKeysOk_processNext
                (fun p hp => hkeys p (mem_mapDelete hp)) now
            · intro t ht
              exact hXpend t (processNext_pending_subset ht)
          · rw [failTask_eq_fail hg hr] at hf
            cases hf
            refine ⟨?_, ?_, ?_, ?_⟩
            · refine (processNext_frame_get ?_ now).trans
                (mapGet_mapDelete_ne hne)
              exact hpend
            · exact (congrArg (fun m => mapGet m id)
                (processNext_preserves _ now).2.2.2.1).trans
                (mapGet_mapSet_ne hne _)
            · exact procKeysOk_processNext
                (fun p hp => hkeys p (mem_mapDelete hp)) now
            · intro t ht
              have ht2 := processNext_pending_subset ht
              exact hpend t ht2
      obtain ⟨hfp, hfc, hfk, hfpd⟩ := hforward
      have hrest := ih q2 id hninr hfk hfpd
      exact ⟨hrest.1.trans hfp, hrest.2.trans hfc⟩

/-- Per-record outcome of the sweep loop: a listed record (all listed ids
being present, pairwise distinct and not shadowed by a pending id) gets
its `taskTimeout` event and is then either re-admitted with its retry
budget consumed, or archived as failed with reason `Task timeout`. -/
theorem sweepFold_hits (now : Nat) :
    ∀ (ids : List String) (qc : QueueState) (id : String) (t : Task),
      ids.Nodup →
      id ∈ ids →
      (∀ id' ∈ ids, (mapGet qc.processingTasks id').isSome = true) →
      (∀ p ∈ qc.processingTasks, p.1 = p.2.taskId) →
      SizeInv qc →
      (∀ t' ∈ qc.pendingQueue, t'.taskId ≠ id) →
      mapGet qc.processingTasks id = some t →
      QEvent.taskTimeout id ∈ (sweepFold now qc ids).events ∧
      (t.retryCount < qc.retryAttempts →
        mapGet (sweepFold now qc ids).processingTasks id =
          some (t.retry.start now)) ∧
      (¬ t.retryCount < qc.retryAttempts →
        mapGet (sweepFold now qc ids).completedTasks id =
          some (t.fail "Task timeout" now)) := by
  intro ids
  induction ids with
  | nil => intro qc id t _ hmem; cases hmem
  | cons id0 rest ih =>
    intro qc id t hnd hmem hpres hkeys hsize hpend hget
    obtain ⟨hnd0, hndr⟩ := List.nodup_cons.mp hnd
    rw [sweepFold]
    by_cases hid : id0 = id
    · subst hid
      have htid : t.taskId = id0 := (hkeys _ (mapGet_mem hget)).symm
      by_cases hr : t.retryCount < qc.retryAttempts
      · rw [failTask_retry_cascade
          (q := { qc with events := qc.events ++ [QEvent.taskTimeout id0] })
          hget hr hsize "Task timeout" now]
        dsimp only
        have hq1keys : ∀ p ∈ mapSet (mapDelete qc.processingTasks id0)
            t.taskId (t.retry.start now), p.1 = p.2.taskId := by
          intro p hp
          rcases mem_mapSet hp with heqp | hm
          · rw [heqp]
            show t.taskId = (t.retry.start now).taskId
            simp [Task.retry, Task.start]
          · exact hkeys p (mem_mapDelete hm)
        have hframe := sweepFold_frame now rest
          { qc with
            processingTasks := mapSet (mapDelete qc.processingTasks id0)
              t.taskId (t.retry.start now),
            events := (qc.events ++ [QEvent.taskTimeout id0]) ++
              [QEvent.taskRetry id0, QEvent.taskStarted t.taskId] }
          id0 hnd0 hq1keys hpend
        obtain ⟨l, hl⟩ := events_prefix_sweepFold now rest _
        refine ⟨?_, ?_, fun hr2 => absurd hr hr2⟩
        · rw [hl]
          show QEvent.taskTimeout id0 ∈
            ((qc.events ++ [QEvent.taskTimeout id0]) ++
              [QEvent.taskRetry id0, QEvent.taskStarted t.taskId]) ++ l
          simp
        · intro _
          rw [hframe.1]
          show mapGet (mapSet (mapDelete qc.processingTasks id0)
            t.taskId (t.retry.start now)) id0 = _
          rw [htid, mapGet_mapSet_self]
      · rw [failTask_eq_fail
          (q := { qc with events := qc.events ++ [QEvent.taskTimeout id0] })
          hget hr "Task timeout" now]
        dsimp only
        have hframe := sweepFold_frame now rest
          (processNext { qc with
            processingTasks := mapDelete qc.processingTasks id0,
            completedTasks := mapSet qc.completedTasks id0
              (t.fail "Task timeout" now),
            totalFailed := qc.totalFailed + 1,
            events := (qc.events ++ [QEvent.taskTimeout id0]) ++
              [QEvent.taskFailed id0] } now)
          id0 hnd0
          (procKeysOk_processNext
            (fun p hp => hkeys p (mem_mapDelete hp)) now)
          (by intro t' ht'
              have ht2 := processNext_pending_subset ht'
              exact hpend t' ht2)
        obtain ⟨l, hl⟩ := events_prefix_sweepFold now rest _
        refine ⟨?_, fun hr2 => absurd hr2 hr, ?_⟩
        · rw [hl]
          obtain ⟨l2, hl2⟩ := events_prefix_processNext
            { qc with
              processingTasks := mapDelete qc.processingTasks id0,
              completedTasks := mapSet qc.completedTasks id0
                (t.fail "Task timeout" now),
              totalFailed := qc.totalFailed + 1,
              events := (qc.events ++ [QEvent.taskTimeout id0]) ++
                [QEvent.taskFailed id0] } now
          rw [hl2]
          show QEvent.taskTimeout id0 ∈
            (((qc.events ++ [QEvent.taskTimeout id0]) ++
              [QEvent.taskFailed id0]) ++ l2) ++ l
          simp
        · intro _
          rw [hframe.2]
          refine (congrArg (fun m => mapGet m id0)
            (processNext_preserves _ now).2.2.2.1).trans ?_
          show mapGet (mapSet qc.completedTasks id0
            (t.fail "Task timeout" now)) id0 = _
          rw [mapGet_mapSet_self]
    · have hmemr : id ∈ rest := by
        rcases List.mem_cons.mp hmem with rfl | hm
        · exact absurd rfl hid
        · exact hm
      have hne : id0 ≠ id := hid
      have hp0 : (mapGet qc.processingTasks id0).isSome = true :=
        hpres id0 (List.mem_cons_self _ _)
      cases hg0 : mapGet qc.processingTasks id0 with
      | none => rw [hg0] at hp0; cases hp0
      | some t0 =>
        have ht0 : t0.taskId = id0 := (hkeys _ (mapGet_mem hg0)).symm
        have hg0x : mapGet ({ qc with
            events := qc.events ++ [QEvent.taskTimeout id0]
          } : QueueState).processingTasks id0 = some t0 := hg0
        by_cases hr0 : t0.retryCount < qc.retryAttempts
        · have hf := failTask_eq_retry hg0x hr0 "Task timeout" now
          rw [hf]
          dsimp only
          have hXpend : ∀ t' ∈ (t0.retry :: qc.pendingQueue),
              t'.taskId ≠ id := by
            intro t' ht'
            rcases List.mem_cons.mp ht' with rfl | ht2
            · show t0.retry.taskId ≠ id
              simpa [Task.retry, ht0] using hne
            · exact hpend t' ht2
          have hkeys1 : ∀ p ∈ (processNext { qc with
              processingTasks := mapDelete qc.processingTasks id0,
              pendingQueue := t0.retry :: qc.pendingQueue,
              events := (qc.events ++ [QEvent.taskTimeout id0]) ++
                [QEvent.taskRetry id0] } now).processingTasks,
              p.1 = p.2.taskId :=
            procKeysOk_processNext
              (fun p hp => hkeys p (mem_mapDelete hp)) now
          have hsize1 := sizeInv_failTask
            (q := { qc with events := qc.events ++ [QEvent.taskTimeout id0] })
            hsize hf
          have hpres1 : ∀ id' ∈ rest,
              (mapGet (processNext { qc with
                processingTasks := mapDelete qc.processingTasks id0,
                pendingQueue := t0.retry :: qc.pendingQueue,
                events := (qc.events ++ [QEvent.taskTimeout id0]) ++
                  [QEvent.taskRetry id0] } now).processingTasks id').isSome
                = true := by
            intro id' hid'
            have hne0 : id0 ≠ id' := fun e => hnd0 (e ▸ hid')
            apply isSome_mapGet_processNext
            show (mapGet (mapDelete qc.processingTasks id0) id').isSome = true
            rw [mapGet_mapDelete_ne hne0]
            exact hpres id' (List.mem_cons_of_mem _ hid')
          have hpend1 : ∀ t' ∈ (processNext { qc with
              processingTasks := mapDelete qc.processingTasks id0,
              pendingQueue := t0.retry :: qc.pendingQueue,
              events := (qc.events ++ [QEvent.taskTimeout id0]) ++
                [QEvent.taskRetry id0] } now).pendingQueue,
              t'.taskId ≠ id :=
            fun t' ht' => hXpend t' (processNext_pending_subset ht')
          have hget1 : mapGet (processNext { qc with
              processingTasks := mapDelete qc.processingTasks id0,
              pendingQueue := t0.retry :: qc.pendingQueue,
              events := (qc.events ++ [QEvent.taskTimeout id0]) ++
                [QEvent.taskRetry id0] } now).processingTasks id = some t := by
            refine (processNext_frame_get hXpend now).trans ?_
            show mapGet (mapDelete qc.processingTasks id0) id = some t
            rw [mapGet_mapDelete_ne hne]
            exact hget
          have hRA : (processNext { qc with
              processingTasks := mapDelete qc.processingTasks id0,
              pendingQueue := t0.retry :: qc.pendingQueue,
              events := (qc.events ++ [QEvent.taskTimeout id0]) ++
                [QEvent.taskRetry id0] } now).retryAttempts =
              qc.retryAttempts :=
            (processNext_preserves _ now).2.2.1
          obtain ⟨he, h2, h3⟩ := ih _ id t hndr hmemr hpres1 hkeys1 hsize1
            hpend1 hget1
          exact ⟨he, fun h => h2 (by rw [hRA]; exact h),
            fun h => h3 (by rw [hRA]; exact h)⟩
        · have hf := failTask_eq_fail hg0x hr0 "Task timeout" now
          rw [hf]
          dsimp only
          have hkeys1 : ∀ p ∈ (processNext { qc with
              processingTasks := mapDelete qc.processingTasks id0,
              completedTasks := mapSet qc.completedTasks id0
                (t0.fail "Task timeout" now),
              totalFailed := qc.totalFailed + 1,
              events := (qc.events ++ [QEvent.taskTimeout id0]) ++
                [QEvent.taskFailed id0] } now).processingTasks,
              p.1 = p.2.taskId :=
            procKeysOk_processNext
              (fun p hp => hkeys p (mem_mapDelete hp)) now
          have hsize1 := sizeInv_failTask
            (q := { qc with events := qc.events ++ [QEvent.taskTimeout id0] })
            hsize hf
          have hpres1 : ∀ id' ∈ rest,
              (mapGet (processNext { qc with
                processingTasks := mapDelete qc.processingTasks id0,
                completedTasks := mapSet qc.completedTasks id0
                  (t0.fail "Task timeout" now),
                totalFailed := qc.totalFailed + 1,
                events := (qc.events ++ [QEvent.taskTimeout id0]) ++
                  [QEvent.taskFailed id0] } now).processingTasks id').isSome
                = true := by
            intro id' hid'
            have hne0 : id0 ≠ id' := fun e => hnd0 (e ▸ hid')
            apply isSome_mapGet_processNext
            show (mapGet (mapDelete qc.processingTasks id0) id').isSome = true
            rw [mapGet_mapDelete_ne hne0]
            exact hpres id' (List.mem_cons_of_mem _ hid')
          have hpend1 : ∀ t' ∈ (processNext { qc with
              processingTasks := mapDelete qc.processingTasks id0,
              completedTasks := mapSet qc.completedTasks id0
                (t0.fail "Task timeout" now),
              totalFailed := qc.totalFailed + 1,
              events := (qc.events ++ [QEvent.taskTimeout id0]) ++
                [QEvent.taskFailed id0] } now).pendingQueue,
              t'.taskId ≠ id :=
            by
              intro t' ht'
              have ht2 := processNext_pending_subset ht'
              exact hpend t' ht2
          have hget1 : mapGet (processNext { qc with
              processingTasks := mapDelete qc.processingTasks id0,
              completedTasks := mapSet qc.completedTasks id0
                (t0.fail "Task timeout" now),
              totalFailed := qc.totalFailed + 1,
              events := (qc.events ++ [QEvent.taskTimeout id0]) ++
                [QEvent.taskFailed id0] } now).processingTasks id = some t := by
            refine (processNext_frame_get ?_ now).trans ?_
            · exact hpend
            · show mapGet (mapDelete qc.processingTasks id0) id = some t
              rw [mapGet_mapDelete_ne hne]
              exact hget
          have hRA : (processNext { qc with
              processingTasks := mapDelete qc.processingTasks id0,
              completedTasks := mapSet qc.completedTasks id0
                (t0.fail "Task timeout" now),
              totalFailed := qc.totalFailed + 1,
              events := (qc.events ++ [QEvent.taskTimeout id0]) ++
                [QEvent.taskFailed id0] } now).retryAttempts =
              qc.retryAttempts :=
            (processNext_preserves _ now).2.2.1
          obtain ⟨he, h2, h3⟩ := ih _ id t hndr hmemr hpres1 hkeys1 hsize1
            hpend1 hget1
          exact ⟨he, fun h => h2 (by rw [hRA]; exact h),
            fun h => h3 (by rw [hRA]; exact h)⟩

/-! ## Claim C5 -/

/-- C5 counterexample: a task that times out to exhaustion is archived
with error exactly `"Task timeout"` (capital T), not the claim's
`"task timeout"`; the trace also shows the sweep consuming the retry
budget (`retryCount = 1` after one timeout retry). -/
theorem claim_C5_counterexample :
    (mapGet (runOps ⟨none, some 1, some 1⟩
        [.opEnqueue "a" cfg0 0, .opSweep 2000,
         .opSweep 9000]).completedTasks "a").map
      (fun t => (t.status, t.error, t.retryCount)) =
      some (.failed, some "Task timeout", 1) ∧
    (runOps ⟨none, some 1, some 1⟩
        [.opEnqueue "a" cfg0 0, .opSweep 2000, .opSweep 9000]).events =
      [QEvent.taskEnqueued "a", QEvent.taskStarted "a",
       QEvent.taskTimeout "a", QEvent.taskRetry "a", QEvent.taskStarted "a",
       QEvent.taskTimeout "a", QEvent.taskFailed "a"] ∧
    "Task timeout" ≠ "task timeout" := by
  decide

/-- C5 amended (general): the timeout sweep is the identity when no
in-flight record has timed out; on a well-formed state within the
concurrency bound, every in-flight record whose elapsed processing time
exceeds `taskTimeout` seconds receives a `taskTimeout` event and is fed
to the ordinary `failTask` path with reason exactly `"Task timeout"`
(capital T): within the retry budget it is re-admitted with its budget
consumed (`retryCount + 1`, `startedAt = now`), past the budget it is
archived as failed with that reason; in-flight records that have not
timed out keep their in-flight and archive entries unchanged; and
well-formedness plus the concurrency bound hold at every reachable
state, so the hypotheses are satisfied on every run. -/
theorem claim_C5_timeout_sweep :
    (∀ (q : QueueState) (now : Nat),
      (∀ p ∈ q.processingTasks,
        p.2.isTimeout q.taskTimeout now = false) →
      checkTimeouts q now = q) ∧
    (∀ (q : QueueState) (now : Nat) (id : String) (task : Task),
      QueueWF q → SizeInv q →
      (id, task) ∈ q.processingTasks →
      task.isTimeout q.taskTimeout now = true →
      QEvent.taskTimeout id ∈ (checkTimeouts q now).events ∧
      (task.retryCount < q.retryAttempts →
        mapGet (checkTimeouts q now).processingTasks id =
          some ((task.retry).start now)) ∧
      (¬ task.retryCount < q.retryAttempts →
        mapGet (checkTimeouts q now).completedTasks id =
          some (task.fail "Task timeout" now))) ∧
    (∀ (q : QueueState) (now : Nat) (id : String) (task : Task),
      QueueWF q →
      (id, task) ∈ q.processingTasks →
      task.isTimeout q.taskTimeout now = false →
      mapGet (checkTimeouts q now).processingTasks id = some task ∧
      mapGet (checkTimeouts q now).completedTasks id =
        mapGet q.completedTasks id) ∧
    (∀ (opts : QueueOptions) (ops : List QOp),
      QueueWF (runOps opts ops) ∧ SizeInv (runOps opts ops)) := by
  refine ⟨?_, ?_, ?_, ?_⟩
  · intro q now h
    unfold checkTimeouts
    have hf : q.processingTasks.filter
        (fun p => p.2.isTimeout q.taskTimeout now) = [] := by
      apply List.filter_eq_nil.mpr
      intro p hp
      simp [h p hp]
    rw [hf]
    rfl
  · intro q now id task hwf hsize hmem htime
    obtain ⟨hk, hnd, hndp, hdisj⟩ := hwf
    have hidkeys : id ∈ q.processingTasks.map Prod.fst :=
      List.mem_map_of_mem Prod.fst hmem
    have hidsnd : ((q.processingTasks.filter
        (fun p => p.2.isTimeout q.taskTimeout now)).map (·.1)).Nodup :=
      List.Nodup.sublist
        (List.Sublist.map _ (List.filter_sublist _)) hnd
    have hmemf : (id, task) ∈ q.processingTasks.filter
        (fun p => p.2.isTimeout q.taskTimeout now) :=
      List.mem_filter.mpr ⟨hmem, by exact htime⟩
    have hidmem : id ∈ (q.processingTasks.filter
        (fun p => p.2.isTimeout q.taskTimeout now)).map (·.1) :=
      List.mem_map_of_mem _ hmemf
    have hpresence : ∀ id' ∈ (q.processingTasks.filter
        (fun p => p.2.isTimeout q.taskTimeout now)).map (·.1),
        (mapGet q.processingTasks id').isSome = true := by
      intro id' hid'
      obtain ⟨p, hp, he⟩ := List.mem_map.mp hid'
      refine isSome_mapGet_of_mem_keys ?_
      exact he ▸ List.mem_map_of_mem Prod.fst (List.mem_of_mem_filter hp)
    have hpendavoid : ∀ t' ∈ q.pendingQueue, t'.taskId ≠ id :=
      fun t' ht' he => hdisj t' ht' (he ▸ hidkeys)
    have hget : mapGet q.processingTasks id = some task :=
      mapGet_first hmem hnd
    unfold checkTimeouts
    exact sweepFold_hits now _ q id task hidsnd hidmem hpresence hk
      hsize hpendavoid hget
  · intro q now id task hwf hmem htime
    obtain ⟨hk, hnd, hndp, hdisj⟩ := hwf
    have hidkeys : id ∈ q.processingTasks.map Prod.fst :=
      List.mem_map_of_mem Prod.fst hmem
    have hnin : id ∉ (q.processingTasks.filter
        (fun p => p.2.isTimeout q.taskTimeout now)).map (·.1) := by
      intro hin
      obtain ⟨p, hp, he⟩ := List.mem_map.mp hin
      obtain ⟨hpm, hpt⟩ := List.mem_filter.mp hp
      have hpm2 : (id, p.2) ∈ q.processingTasks := by
        rw [← he]
        exact (Prod.mk.eta) ▸ hpm
      have hpt2 : p.2 = task := mem_keys_unique hnd hpm2 hmem
      rw [hpt2] at hpt
      rw [htime] at hpt
      cases hpt
    unfold checkTimeouts
    have hframe := sweepFold_frame now _ q id hnin hk
      (fun t' ht' he => hdisj t' ht' (he ▸ hidkeys))
    exact ⟨hframe.1.trans (mapGet_first hmem hnd), hframe.2⟩
  · intro opts ops
    exact ⟨queueWF_runOps opts ops, sizeInv_runOps opts ops⟩

/-- Instantiation of `claim_C5_timeout_sweep` at concrete inputs: a
fresh queue with nothing in flight is untouched, and on a two-record
in-flight map at `now = 400000` ms the record started at 0 (past the
300-second default timeout) is timed out and re-admitted as a retry,
while the record started at 200000 ms is untouched. -/
theorem claim_C5_witness :
    checkTimeouts (initQueue ⟨none, none, none⟩) 50 =
      initQueue ⟨none, none, none⟩ ∧
    (QEvent.taskTimeout "x" ∈
        (checkTimeouts demoTwoInFlight 400000).events ∧
      (((mkTask "x" cfg0 0).start 0).retryCount <
          demoTwoInFlight.retryAttempts →
        mapGet (checkTimeouts demoTwoInFlight 400000).processingTasks "x" =
          some ((((mkTask "x" cfg0 0).start 0).retry).start 400000)) ∧
      (¬ ((mkTask "x" cfg0 0).start 0).retryCount <
          demoTwoInFlight.retryAttempts →
        mapGet (checkTimeouts demoTwoInFlight 400000).completedTasks "x" =
          some (((mkTask "x" cfg0 0).start 0).fail "Task timeout"
            400000))) ∧
    (mapGet (checkTimeouts demoTwoInFlight 400000).processingTasks "y" =
        some ((mkTask "y" cfg0 0).start 200000) ∧
      mapGet (checkTimeouts demoTwoInFlight 400000).completedTasks "y" =
        mapGet demoTwoInFlight.completedTasks "y") :=
  ⟨claim_C5_timeout_sweep.1 (initQueue ⟨none, none, none⟩) 50
     (by intro p hp; cases hp),
   claim_C5_timeout_sweep.2.1 demoTwoInFlight 400000 "x"
     ((mkTask "x" cfg0 0).start 0)
     (by refine ⟨?_, ?_, ?_, ?_⟩ <;> decide)
     (by unfold SizeInv; decide)
     (List.mem_cons_self _ _)
     (by decide),
   claim_C5_timeout_sweep.2.2.1 demoTwoInFlight 400000 "y"
     ((mkTask "y" cfg0 0).start 200000)
     (by refine ⟨?_, ?_, ?_, ?_⟩ <;> decide)
     (List.mem_cons_of_mem _ (List.mem_cons_self _ _))
     (by decide)⟩

end EchartsServer
